import Mathlib

/-!
Verification of the Chess Vision Trainer session engine.

This file gives a shallow embedding of the core of the repository
(`src/utils/chess-utils.ts`, `src/ui/StatusManager.ts`,
`src/core/GameSession.ts`) and proves the specification claims about it.

The chess rules oracle (the external `Chess` class from chess.js) is out of
scope of the repository; it is modelled as an abstract record of pure
functions (`Oracle`).  Stateful code is modelled by explicit state passing:
the live game is a current FEN string plus an undo history, the status/timer
manager is a record of epochs, and the session is a record updated by pure
transition functions that also emit a list of UI effects.  Wall-clock reads
(`Date.now()`) become explicit `now : Int` parameters.  JavaScript numbers
used as statistics counters are natural numbers; the accuracy percentage
(computed with JavaScript float division) is modelled in `ℚ`, which is exact
for the quantities involved.
-/

namespace ChessVision

/-- A chess side, `'w'` or `'b'` in the source. -/
inductive Color where
  | w
  | b
deriving DecidableEq, Fintype

/-- Opponent color (`playerColor === 'w' ? 'b' : 'w'`). -/
def Color.other : Color → Color
  | .w => .b
  | .b => .w

/-- The FEN letter of a color. -/
def Color.str : Color → String
  | .w => "w"
  | .b => "b"

/-- A verbose move record as returned by the oracle's legal-move listing
(chess.js `moves({verbose:true})`): origin and destination squares, SAN
string, flag characters and piece-type letter. -/
structure MoveData where
  fromSq : String
  toSq : String
  san : String
  flags : String
  piece : String
deriving DecidableEq

/-- A piece sitting on a square (`game.get(square)`). -/
structure Piece where
  color : Color
  ptype : String
deriving DecidableEq

/-- `getMoveKey` from `chess-utils.ts`: the composite key `"{from}-{to}"`. -/
def getMoveKey (fromSq toSq : String) : String :=
  fromSq ++ "-" ++ toSq

/-- Key of a verbose move record. -/
def keyOf (m : MoveData) : String :=
  getMoveKey m.fromSq m.toSq

/-- A scripted bad move object `{ san, refutation }`. -/
structure BadMove where
  san : String
  refutation : Option String
deriving DecidableEq

/-- A bad-move list entry: a bare SAN string or a structured object
(`Array<string | BadMove>` in the source). -/
inductive BadMoveSpec where
  | plain (san : String)
  | scripted (bm : BadMove)
deriving DecidableEq

/-- The SAN compared against the user's move
(`typeof bm === 'string' ? bm : bm.san`). -/
def BadMoveSpec.sanOf : BadMoveSpec → String
  | .plain s => s
  | .scripted bm => bm.san

/-- `isBadMove` from `chess-utils.ts`. -/
def isBadMove (san : String) (badMovesList : List BadMoveSpec) : Bool :=
  badMovesList.any (fun bm => bm.sanOf == san)

/-- `findBadMoveObj` from `chess-utils.ts` (`Array.find` returns the first
matching entry). -/
def findBadMoveObj (san : String) (badMovesList : List BadMoveSpec) :
    Option BadMoveSpec :=
  badMovesList.find? (fun bm => bm.sanOf == san)

/-- `fen.split(' ')`: split on every single space, keeping empty fields
(JavaScript `String.prototype.split` with a one-character separator). -/
def splitSpacesAux : List Char → List Char → List String
  | [], acc => [String.mk acc.reverse]
  | c :: rest, acc =>
    if c == ' ' then String.mk acc.reverse :: splitSpacesAux rest []
    else splitSpacesAux rest (c :: acc)

/-- Split a string on spaces. -/
def splitSpaces (s : String) : List String :=
  splitSpacesAux s.data []

/-- `tokens.join(' ')`. -/
def joinSpaces : List String → String
  | [] => ""
  | [x] => x
  | x :: xs => x ++ " " ++ joinSpaces xs

/-- The FEN-token surgery used throughout the source to force the side to
move and clear the en-passant field:
`tokens = fen.split(' '); tokens[1] = color; tokens[3] = '-';
tokens.join(' ')`.  (For well-formed FEN strings, which have at least four
fields, `List.set` agrees with the JavaScript assignment.) -/
def forceFen (fen : String) (color : Color) : String :=
  let tokens := splitSpaces fen
  let tokens := tokens.set 1 color.str
  let tokens := tokens.set 3 "-"
  joinSpaces tokens

/-- The move-generation / legality oracle (chess.js), an external
collaborator of the repository.  All functions are pure; position state is
carried as a FEN string.  `loadOpt` models `new Chess(fen)` in contexts
where the source catches a thrown exception; `normalizeFen` models
load-then-`fen()` where the source does not guard the load. -/
structure Oracle where
  loadOpt : String → Option String
  normalizeFen : String → String
  legalMoves : String → List MoveData
  applyMoveObj : String → MoveData → String
  inCheck : String → Bool
  pieceAt : String → String → Option Piece
  moveFromTo : String → String → String → Option (MoveData × String)
  moveSan : String → String → Option MoveData
  turn : String → Color

/-- A JavaScript `Map<string, MoveData>` as an insertion-ordered association
list: `set` of an existing key overwrites in place, a new key is appended. -/
abbrev MoveMap := List (String × MoveData)

/-- `Map.prototype.set` semantics. -/
def mapSet (m : MoveMap) (k : String) (v : MoveData) : MoveMap :=
  if m.any (fun p => p.1 == k) then
    m.map (fun p => if p.1 == k then (k, v) else p)
  else
    m ++ [(k, v)]

/-- `Map.prototype.get` semantics. -/
def mapGet (m : MoveMap) (k : String) : Option MoveData :=
  (m.find? (fun p => p.1 == k)).map Prod.snd

/-- The keys of a map, in insertion order. -/
def mapKeys (m : MoveMap) : List String :=
  m.map Prod.fst

/-- `new Map(list.map(m => [getMoveKey(m.from, m.to), m]))`: the Map
constructor inserts the pairs in list order. -/
def buildMoveMap (l : List MoveData) : MoveMap :=
  l.foldl (fun acc m => mapSet acc (keyOf m) m) []

/-- The per-color target set: iterable lists plus O(1) lookup maps. -/
structure TargetMoves where
  checks : List MoveData
  captures : List MoveData
  checksMap : MoveMap
  capturesMap : MoveMap
deriving DecidableEq

/-- The empty target set (also returned when loading the forced position
fails). -/
def emptyTargetMoves : TargetMoves :=
  { checks := [], captures := [], checksMap := [], capturesMap := [] }

/-- Targets for both colors. -/
structure TargetColors where
  w : TargetMoves
  b : TargetMoves
deriving DecidableEq

/-- Projection `targets[color]`. -/
def targetsFor (t : TargetColors) : Color → TargetMoves
  | .w => t.w
  | .b => t.b

/-- Both-colors empty targets (`_createEmptyTargets`). -/
def emptyTargetColors : TargetColors :=
  { w := emptyTargetMoves, b := emptyTargetMoves }

/-- `getMovesForColor` from `chess-utils.ts`: force the side to move on a
scratch copy (clearing en passant), enumerate legal moves, collect the
moves whose flags mark a capture (ordinary `'c'` or en-passant `'e'`) and
the moves that leave the opponent in check after being applied; build the
lookup maps from the lists.  On a load failure (the source's `catch`)
return empty structures. -/
def getMovesForColor (O : Oracle) (fen : String) (color : Color) :
    TargetMoves :=
  match O.loadOpt (forceFen fen color) with
  | none => emptyTargetMoves
  | some pos =>
    let ms := O.legalMoves pos
    let captures := ms.filter (fun m => m.flags.data.contains 'c' || m.flags.data.contains 'e')
    let checks := ms.filter (fun m => O.inCheck (O.applyMoveObj pos m))
    { checks := checks
      captures := captures
      checksMap := buildMoveMap checks
      capturesMap := buildMoveMap captures }

/-- `analyzeTargets` from `chess-utils.ts`. -/
def analyzeTargets (O : Oracle) (fen : String) : TargetColors :=
  { w := getMovesForColor O fen .w
    b := getMovesForColor O fen .b }

-- ==========================================
-- StatusManager (src/ui/StatusManager.ts)
-- ==========================================

/-- The timer-relevant state of `StatusManager`: epochs in milliseconds. -/
structure StatusState where
  sessionStartTime : Int
  limitEndTime : Int
  isPaused : Bool
  pauseStartTime : Int
deriving DecidableEq

/-- `pauseTimer` at wall-clock `now`: no-op when already paused, otherwise
record the pause start (the interval is stopped, which has no effect on
this abstract state). -/
def pauseTimer (now : Int) (st : StatusState) : StatusState :=
  if st.isPaused then st
  else { st with isPaused := true, pauseStartTime := now }

/-- `resumeTimer` at wall-clock `now`: no-op when not paused; otherwise
shift an active countdown deadline and the session start epoch forward by
the pause duration and clear the paused flag. -/
def resumeTimer (now : Int) (isCountdown : Bool) (st : StatusState) :
    StatusState :=
  if !st.isPaused then st
  else
    let pauseDuration := now - st.pauseStartTime
    let st1 :=
      if isCountdown then { st with limitEndTime := st.limitEndTime + pauseDuration }
      else st
    { st1 with sessionStartTime := st1.sessionStartTime + pauseDuration,
               isPaused := false }

/-- `getElapsedTime`: seconds elapsed, frozen at the pause start while
paused (`Math.floor((endTime - sessionStartTime) / 1000)`). -/
def getElapsedTime (now : Int) (st : StatusState) : Int :=
  let endTime := if st.isPaused then st.pauseStartTime else now
  Int.fdiv (endTime - st.sessionStartTime) 1000

-- ==========================================
-- The live game (chess.js instance held by GameSession)
-- ==========================================

/-- The live `Chess` instance: current FEN plus the undo history
(`move` pushes, `undo` pops). -/
structure GameState where
  fen : String
  hist : List String
deriving DecidableEq

/-- `game.load(fen)`: replace the position, clearing the history. -/
def gameLoad (O : Oracle) (fen : String) : GameState :=
  { fen := O.normalizeFen fen, hist := [] }

/-- `game.move({from, to, promotion:'q'})`: returns the verbose move on
success (`null` on failure leaves the game unchanged). -/
def gameMove (O : Oracle) (g : GameState) (fromSq toSq : String) :
    GameState × Option MoveData :=
  match O.moveFromTo g.fen fromSq toSq with
  | some (md, newFen) => ({ fen := newFen, hist := g.fen :: g.hist }, some md)
  | none => (g, none)

/-- `game.undo()`: pop the last position; no-op on an empty history. -/
def gameUndo (g : GameState) : GameState :=
  match g.hist with
  | [] => g
  | f :: rest => { fen := f, hist := rest }

-- ==========================================
-- Session configuration and environment
-- ==========================================

/-- `timeMode` values. -/
inductive TimeMode where
  | total
  | perPuzzle
deriving DecidableEq

/-- The slice of `SessionConfig` the session engine reads. -/
structure Config where
  goodMovesOnly : Bool
  sequentialMode : Bool
  timeLimit : Int
  timeMode : TimeMode
  autoFlip : Bool
  highlightFound : Bool
  hideLegalMoves : Bool
deriving DecidableEq

/-- A puzzle: id, FEN and the scripted bad-move list
(`bad_moves` may be absent in the data; absence is the empty list). -/
structure Puzzle where
  id : Nat
  fen : String
  bad_moves : List BadMoveSpec
deriving DecidableEq

/-- The immutable collaborators and data of one session. -/
structure Env where
  oracle : Oracle
  puzzles : List Puzzle
  config : Config
  previouslySolvedIds : List Nat

-- ==========================================
-- Statistics
-- ==========================================

/-- Found/total counters of one move category. -/
structure MoveStats where
  found : Nat
  total : Nat
deriving DecidableEq

/-- `SessionStats` from `GameSession.ts`. -/
structure SessionStats where
  solvedCount : Nat
  newPuzzlesSolved : Nat
  totalClicks : Nat
  totalErrors : Nat
  totalMovesFound : Nat
  totalMovesAvailable : Nat
  wChecks : MoveStats
  wCaptures : MoveStats
  bChecks : MoveStats
  bCaptures : MoveStats
deriving DecidableEq

/-- The all-zero stats built in the constructor. -/
def initialStats : SessionStats :=
  { solvedCount := 0, newPuzzlesSolved := 0, totalClicks := 0,
    totalErrors := 0, totalMovesFound := 0, totalMovesAvailable := 0,
    wChecks := ⟨0, 0⟩, wCaptures := ⟨0, 0⟩, bChecks := ⟨0, 0⟩,
    bCaptures := ⟨0, 0⟩ }

/-- Increment the found counter of a category. -/
def incFound (ms : MoveStats) : MoveStats :=
  { ms with found := ms.found + 1 }

-- ==========================================
-- Session state and emitted effects
-- ==========================================

/-- The mutable state of a `GameSession`.  `finished` records that
`finish()`/`destroy()` ran (the board is destroyed, so no further events
reach the session). -/
structure SessionState where
  currentPuzzleIndex : Nat
  stats : SessionStats
  game : GameState
  foundMoves : List String
  targets : TargetColors
  currentStageIndex : Nat
  isDelayActive : Bool
  status : StatusState
  finished : Bool
deriving DecidableEq

/-- Callbacks registered through `_setTimeout`. -/
inductive ScheduledAction where
  | visualRevert
  | shapeRedraw
  | badMoveResolution (moveSuccessful : Bool)
  | puzzleTransition
  | timeoutAdvance
deriving DecidableEq

/-- Commands the session issues to its UI/persistence collaborators. -/
inductive Effect where
  | undoVisual (fen : String)
  | setPosition (fen : String) (orientation : String)
  | setStatus (msg : String) (color : String)
  | clearPersistentShapes
  | clearUserShapes
  | clearLogs
  | addPersistentShape (brush orig dest : String)
  | updateShapes (shapes : List (String × String × String))
  | logMove (san : String) (isCheck isCapture : Bool) (color : Color)
  | playSound (name : String)
  | schedule (action : ScheduledAction) (delayMs : Nat)
  | startTimer (isCountdown : Bool)
  | stopTimer
  | showTimeoutModal
  | showResults (solved total : Nat) (time : Int) (accuracy avgTime : ℚ)
  | saveSession
  | markSolved (id : Nat)
  | updateUI
deriving DecidableEq

/-- Delay constants from `constants.ts`. -/
def DELAYS_MOVE_HIGHLIGHT : Nat := 300

/-- `DELAYS.BAD_MOVE_REFUTATION`. -/
def DELAYS_BAD_MOVE_REFUTATION : Nat := 2000

/-- `DELAYS.PUZZLE_TRANSITION`. -/
def DELAYS_PUZZLE_TRANSITION : Nat := 800

/-- `DELAYS.TIMEOUT_DISPLAY`. -/
def DELAYS_TIMEOUT_DISPLAY : Nat := 1000

/-- `DELAYS.SHAPE_UPDATE`. -/
def DELAYS_SHAPE_UPDATE : Nat := 50

/-- `TIME.MS_PER_SECOND`. -/
def MS_PER_SECOND : Int := 1000

-- ==========================================
-- GameSession helpers
-- ==========================================

/-- `_isValidMove`: a move counts unless good-moves-only mode excludes it as
a scripted bad move. -/
def isValidMove (cfg : Config) (m : MoveData) (badMovesList : List BadMoveSpec) :
    Bool :=
  !(cfg.goodMovesOnly && isBadMove m.san badMovesList)

/-- `_countValidMoves`: the number of distinct from-to keys among the valid
moves of a list (the source accumulates them in a `Set`). -/
def countValidMoves (cfg : Config) (moves : List MoveData)
    (badMovesList : List BadMoveSpec) : Nat :=
  (((moves.filter (fun m => isValidMove cfg m badMovesList)).map keyOf).dedup).length

/-- A sequential-mode stage. -/
structure Stage where
  id : String
  color : Color
  ttype : Bool
deriving DecidableEq

/-- `true` marks a checks stage, `false` a captures stage. -/
def Stage.isChecks (st : Stage) : Bool := st.ttype

/-- The fixed `STAGES` table (names omitted): w-checks, w-captures,
b-checks, b-captures. -/
def STAGES : List Stage :=
  [⟨"w-checks", .w, true⟩, ⟨"w-captures", .w, false⟩,
   ⟨"b-checks", .b, true⟩, ⟨"b-captures", .b, false⟩]

/-- The raw target list of a stage. -/
def stageList (targets : TargetColors) (st : Stage) : List MoveData :=
  if st.isChecks then (targetsFor targets st.color).checks
  else (targetsFor targets st.color).captures

/-- The `required` counter of `_checkStageCompletion`'s loop body. -/
def stageRequired (cfg : Config) (targets : TargetColors)
    (badMovesList : List BadMoveSpec) (st : Stage) : Nat :=
  (stageList targets st).countP (fun m => isValidMove cfg m badMovesList)

/-- The `found` counter of `_checkStageCompletion`'s loop body. -/
def stageFound (cfg : Config) (targets : TargetColors)
    (badMovesList : List BadMoveSpec) (found : List String) (st : Stage) : Nat :=
  (stageList targets st).countP
    (fun m => isValidMove cfg m badMovesList && found.contains (keyOf m))

/-- A stage is satisfied when `found >= required`. -/
def stageSatisfied (cfg : Config) (targets : TargetColors)
    (badMovesList : List BadMoveSpec) (found : List String) (st : Stage) : Bool :=
  stageRequired cfg targets badMovesList st ≤
    stageFound cfg targets badMovesList found st

/-- The `while` loop of `_checkStageCompletion`: advance the stage index
through consecutive satisfied stages. -/
def advanceStages (sat : Nat → Bool) (i : Nat) : Nat :=
  if h : i < STAGES.length then
    if sat i then advanceStages sat (i + 1) else i
  else i
termination_by STAGES.length - i

/-- All four target lists concatenated (`_checkIfAllFound`). -/
def allTargetsList (t : TargetColors) : List MoveData :=
  t.w.checks ++ t.w.captures ++ t.b.checks ++ t.b.captures

/-- The from-to keys of all non-excluded targets (the `requiredMoves` set of
`_checkIfAllFound`, as a list possibly containing duplicates). -/
def requiredKeys (cfg : Config) (t : TargetColors)
    (badMovesList : List BadMoveSpec) : List String :=
  ((allTargetsList t).filter (fun m => isValidMove cfg m badMovesList)).map keyOf

/-- `_checkIfAllFound`: every non-excluded target key has been found. -/
def checkIfAllFound (cfg : Config) (t : TargetColors)
    (badMovesList : List BadMoveSpec) (found : List String) : Bool :=
  (requiredKeys cfg t badMovesList).all (fun k => found.contains k)

/-- `_getCurrentBadMoves`. -/
def currentBadMoves (env : Env) (s : SessionState) : List BadMoveSpec :=
  match env.puzzles.get? s.currentPuzzleIndex with
  | some p => p.bad_moves
  | none => []

/-- The accuracy percentage computed in `finish()`:
`totalMovesAvailable > 0 ? totalMovesFound / totalMovesAvailable * 100 : 0`. -/
def accuracyOf (stats : SessionStats) : ℚ :=
  if stats.totalMovesAvailable > 0 then
    (stats.totalMovesFound : ℚ) / (stats.totalMovesAvailable : ℚ) * 100
  else 0

/-- The visual revert issued on every rejected attempt. -/
def undoEffect (s : SessionState) : Effect :=
  Effect.undoVisual s.game.fen

-- ==========================================
-- Classification helpers of _handleMove
-- ==========================================

/-- `tColor.checksMap.get(moveKey)`. -/
def foundCheckOf (s : SessionState) (c : Color) (moveKey : String) :
    Option MoveData :=
  mapGet (targetsFor s.targets c).checksMap moveKey

/-- `tColor.capturesMap.get(moveKey)`. -/
def foundCaptureOf (s : SessionState) (c : Color) (moveKey : String) :
    Option MoveData :=
  mapGet (targetsFor s.targets c).capturesMap moveKey

/-- `foundCheck || foundCapture`. -/
def targetMoveOf (s : SessionState) (c : Color) (moveKey : String) :
    Option MoveData :=
  (foundCheckOf s c moveKey).orElse (fun _ => foundCaptureOf s c moveKey)

/-- The SAN of the attempt: the target's stored SAN when the key hits a
lookup map, otherwise the SAN from the oracle's legal-move list. -/
def sanOfMove (env : Env) (s : SessionState) (orig dest : String) (c : Color) :
    Option String :=
  match targetMoveOf s c (getMoveKey orig dest) with
  | some m => some m.san
  | none =>
    ((env.oracle.legalMoves s.game.fen).find?
        (fun m => m.fromSq == orig && m.toSq == dest)).map MoveData.san

-- ==========================================
-- Refutation resolution (_handleBadMoveRefutation)
-- ==========================================

/-- `refutationSan.replace(/[+#x]/g, '')`. -/
def stripDecor (s : String) : String :=
  String.mk (s.toList.filter (fun c => !(c == '+' || c == '#' || c == 'x')))

/-- A file letter a-h. -/
def isFileChar (c : Char) : Bool := 'a' ≤ c && c ≤ 'h'

/-- A rank digit 1-8. -/
def isRankChar (c : Char) : Bool := '1' ≤ c && c ≤ '8'

/-- Leftmost match of the regular expression `([a-h][1-8])`. -/
def firstSquareAux : List Char → Option String
  | c1 :: c2 :: rest =>
    if isFileChar c1 && isRankChar c2 then some (String.mk [c1, c2])
    else firstSquareAux (c2 :: rest)
  | _ => none

/-- `refutationSan.match(/([a-h][1-8])/)`, first match. -/
def firstSquare (s : String) : Option String :=
  firstSquareAux s.data

/-- `refutationSan.match(/^[KQRBN]/) ? refutationSan[0] : 'p'`. -/
def pieceCharOf (r : String) : Char :=
  match r.data with
  | c :: _ =>
    if c == 'K' || c == 'Q' || c == 'R' || c == 'B' || c == 'N' then c else 'p'
  | [] => 'p'

/-- `pieceTypeMap[pieceChar] || 'p'`. -/
def pieceTypeOf (c : Char) : String :=
  if c == 'K' then "k"
  else if c == 'Q' then "q"
  else if c == 'R' then "r"
  else if c == 'B' then "b"
  else if c == 'N' then "n"
  else "p"

/-- Tier 1: exact SAN parse (`refutationGame.move(refutationSan)`). -/
def refutTier1 (O : Oracle) (fen : String) (r : String) : Option MoveData :=
  O.moveSan fen r

/-- Tier 2: match a legal move after stripping `+`, `#`, `x` from both
sides. -/
def refutTier2 (O : Oracle) (fen : String) (r : String) : Option MoveData :=
  (O.legalMoves fen).find? (fun m => stripDecor m.san == stripDecor r)

/-- Tier 3: match by destination square plus piece-type letter (pawn when no
leading piece letter), taking the first candidate. -/
def refutTier3 (O : Oracle) (fen : String) (r : String) : Option MoveData :=
  match firstSquare r with
  | none => none
  | some targetSq =>
    let targetPiece := pieceTypeOf (pieceCharOf r)
    ((O.legalMoves fen).filter
        (fun m => m.toSq == targetSq && m.piece == targetPiece)).head?

/-- The refutation search of `_handleBadMoveRefutation`, tiers in source
order. -/
def resolveRefutation (O : Oracle) (fen : String) (r : String) :
    Option MoveData :=
  match refutTier1 O fen r with
  | some m => some m
  | none =>
    match refutTier2 O fen r with
    | some m => some m
    | none => refutTier3 O fen r

/-- The scratch position on which the refutation is searched: starting from
the live position (which already contains the bad move when it applied),
force the player's side (clearing en passant), replay the bad move — a
no-op when the piece already moved — and force the opponent's side. -/
def refutationFen (O : Oracle) (liveFen : String) (playerColor : Color)
    (fromSq toSq : String) : String :=
  let fen1 := O.normalizeFen (forceFen liveFen playerColor)
  let fen2 :=
    match O.moveFromTo fen1 fromSq toSq with
    | some (_, f) => f
    | none => fen1
  O.normalizeFen (forceFen fen2 playerColor.other)

-- ==========================================
-- Session transitions
-- ==========================================

/-- The solved bookkeeping shared by free-mode and sequential completion:
increment `solvedCount`; when the puzzle has a (truthy) id, count it as
newly solved if it was not solved before the session and persist it. -/
def markSolvedState (env : Env) (s : SessionState) :
    SessionState × List Effect :=
  let s1 := { s with stats := { s.stats with solvedCount := s.stats.solvedCount + 1 } }
  match env.puzzles.get? s1.currentPuzzleIndex with
  | some puzzle =>
    if puzzle.id ≠ 0 then
      let s2 :=
        if !(env.previouslySolvedIds.contains puzzle.id) then
          { s1 with stats := { s1.stats with newPuzzlesSolved := s1.stats.newPuzzlesSolved + 1 } }
        else s1
      (s2, [Effect.markSolved puzzle.id])
    else (s1, [])
  | none => (s1, [])

/-- The stage-satisfaction test of `_checkStageCompletion`, indexed by the
stage number. -/
def stageSat (env : Env) (s : SessionState) : Nat → Bool := fun i =>
  match STAGES.get? i with
  | some st => stageSatisfied env.config s.targets (currentBadMoves env s)
      s.foundMoves st
  | none => false

/-- `_checkStageCompletion`. -/
def checkStageCompletion (env : Env) (s : SessionState) :
    SessionState × List Effect :=
  let newIndex := advanceStages (stageSat env s) s.currentStageIndex
  let s1 := { s with currentStageIndex := newIndex }
  if STAGES.length ≤ newIndex then
    let (s2, eff2) := markSolvedState env s1
    (s2, [Effect.updateUI, Effect.setStatus "Готово!" "green"] ++ eff2 ++
      [Effect.schedule .puzzleTransition DELAYS_PUZZLE_TRANSITION])
  else
    (s1, [Effect.updateUI])

/-- The statistics update of the success path: moves-found plus the
per-category found counters (a move that is both a check and a capture
increments both). -/
def successStats (pc : Color) (fc fcap : Option MoveData)
    (st : SessionStats) : SessionStats :=
  let stats1 := { st with totalMovesFound := st.totalMovesFound + 1 }
  let stats2 :=
    if fc.isSome then
      if pc = Color.w then { stats1 with wChecks := incFound stats1.wChecks }
      else { stats1 with bChecks := incFound stats1.bChecks }
    else stats1
  if fcap.isSome then
    if pc = Color.w then { stats2 with wCaptures := incFound stats2.wCaptures }
    else { stats2 with bCaptures := incFound stats2.bCaptures }
  else stats2

/-- The success path of `_handleMove` (a target move not yet found): record
the key, update counters by category, log and highlight, then evaluate
completion. -/
def handleSuccess (env : Env) (orig dest : String) (pieceColor : Color)
    (moveKey san : String) (foundCheck foundCapture : Option MoveData)
    (moveIsBad : Bool) (s : SessionState) : SessionState × List Effect :=
  if s.foundMoves.contains moveKey then
    (s, [Effect.playSound "already", Effect.setStatus "Уже нашли!" "blue",
      undoEffect s])
  else
    let soundEff :=
      if foundCheck.isSome then [Effect.playSound "check"]
      else if foundCapture.isSome then [Effect.playSound "capture"]
      else []
    let s3 := { s with
      foundMoves := moveKey :: s.foundMoves
      stats := successStats pieceColor foundCheck foundCapture s.stats }
    let highlightEff :=
      if env.config.highlightFound then [Effect.addPersistentShape "blue" orig dest]
      else []
    let statusEff :=
      if env.config.goodMovesOnly then [Effect.setStatus "Верно!" "green"]
      else if moveIsBad then [Effect.setStatus "Взятие (но опасное!)" "#d97706"]
      else [Effect.setStatus "Верно!" "green"]
    let eff0 := soundEff ++
      [Effect.logMove san foundCheck.isSome foundCapture.isSome pieceColor,
       Effect.clearUserShapes] ++ highlightEff ++ statusEff ++
      [Effect.updateUI, Effect.schedule .visualRevert DELAYS_MOVE_HIGHLIGHT]
    if env.config.sequentialMode then
      let (s4, eff4) := checkStageCompletion env s3
      (s4, eff0 ++ eff4)
    else if checkIfAllFound env.config s.targets (currentBadMoves env s)
        s3.foundMoves then
      let (s4, eff4) := markSolvedState env s3
      (s4, eff0 ++ [Effect.setStatus "Всё найдено! Следующая..." "green"] ++
        eff4 ++ [Effect.schedule .puzzleTransition DELAYS_PUZZLE_TRANSITION])
    else
      (s3, eff0)

/-- `_handleBadMoveRefutation`: lock input, pause the timer, search the
scripted refutation (three tiers) for a demonstrative arrow, surface an
explicit status when unresolvable, and always schedule the penalty
resolution. -/
def handleBadMoveRefutation (env : Env) (now : Int)
    (refutationSan : Option String) (playerColor : Color)
    (fromSq toSq : String) (moveSuccessful : Bool) (s : SessionState) :
    SessionState × List Effect :=
  let s1 := { s with isDelayActive := true, status := pauseTimer now s.status }
  let baseEff := [Effect.playSound "error",
    Effect.setStatus "ОШИБКА! Смотри почему..." "red"]
  let shapeEff :=
    match refutationSan with
    | none => []
    | some r =>
      let fen := refutationFen env.oracle s1.game.fen playerColor fromSq toSq
      match resolveRefutation env.oracle fen r with
      | some m =>
        [Effect.updateShapes [(m.fromSq, m.toSq, "red")],
         Effect.schedule .shapeRedraw DELAYS_SHAPE_UPDATE]
      | none =>
        [Effect.setStatus ("Ошибка: Не могу показать ход " ++ r) "red"]
  (s1, baseEff ++ shapeEff ++
    [Effect.schedule (.badMoveResolution moveSuccessful)
      DELAYS_BAD_MOVE_REFUTATION])

/-- The scheduled bad-move penalty resolution: undo the move if it was
applied, revert the board, unlock input and resume the timer. -/
def resolveBadMove (env : Env) (now : Int) (moveSuccessful : Bool)
    (s : SessionState) : SessionState × List Effect :=
  let game := if moveSuccessful then gameUndo s.game else s.game
  let isCountdown : Bool := decide (env.config.timeLimit > 0)
  let s1 := { s with
    game := game
    isDelayActive := false
    status := resumeTimer now isCountdown s.status }
  (s1, [Effect.undoVisual game.fen,
    Effect.setStatus "Ищи другой ход" "#333",
    Effect.startTimer isCountdown])

/-- `_handleMove(orig, dest)` at wall-clock `now`. -/
def handleMove (env : Env) (now : Int) (orig dest : String)
    (s : SessionState) : SessionState × List Effect :=
  if env.config.timeLimit > 0 ∧ now > s.status.limitEndTime then
    (s, [undoEffect s])
  else if s.isDelayActive then
    (s, [undoEffect s])
  else
    match env.oracle.pieceAt s.game.fen orig with
    | none => (s, [undoEffect s])
    | some piece =>
      let pieceColor := piece.color
      let moveKey := getMoveKey orig dest
      let foundCheck := foundCheckOf s pieceColor moveKey
      let foundCapture := foundCaptureOf s pieceColor moveKey
      let targetMove := targetMoveOf s pieceColor moveKey
      match sanOfMove env s orig dest pieceColor with
      | none => (s, [undoEffect s])
      | some san =>
        let s1 := { s with stats := { s.stats with totalClicks := s.stats.totalClicks + 1 } }
        let badMovesList := currentBadMoves env s
        let badMoveObj := findBadMoveObj san badMovesList
        let moveIsBad := badMoveObj.isSome
        if env.config.goodMovesOnly then
          if moveIsBad then
            let gm := gameMove env.oracle s.game orig dest
            let s3 := { s with
              stats := { s.stats with
                totalClicks := s.stats.totalClicks + 1
                totalErrors := s.stats.totalErrors + 1 }
              game := gm.1 }
            let refutation :=
              match badMoveObj with
              | some (.scripted bm) => bm.refutation
              | _ => none
            handleBadMoveRefutation env now refutation pieceColor orig dest
              gm.2.isSome s3
          else if targetMove.isNone then
            (s1, [undoEffect s1, Effect.setStatus "Мимо! Это не цель." "orange"])
          else
            handleSuccess env orig dest pieceColor moveKey san foundCheck
              foundCapture moveIsBad s1
        else
          if targetMove.isNone then
            (s1, [undoEffect s1, Effect.setStatus "Мимо! Это не цель." "orange"])
          else
            handleSuccess env orig dest pieceColor moveKey san foundCheck
              foundCapture moveIsBad s1

/-- `finish()`: stop timers, compute the results payload (elapsed time,
accuracy, average time) and hand it off; the session is destroyed. -/
def finishSession (env : Env) (now : Int) (s : SessionState) :
    SessionState × List Effect :=
  let totalTime := getElapsedTime now s.status
  let puzzlesCount : Nat := max 1 s.currentPuzzleIndex
  let accuracy := accuracyOf s.stats
  let avgTime : ℚ :=
    if puzzlesCount > 0 then (totalTime : ℚ) / (puzzlesCount : ℚ) else 0
  ({ s with finished := true },
   [Effect.stopTimer,
    Effect.showResults s.stats.solvedCount env.puzzles.length totalTime
      accuracy avgTime,
    Effect.saveSession])

/-- `_loadPuzzle(index)`: finish when past the end, otherwise reset the
per-puzzle state, analyze targets, tally per-category totals, set the
board and optionally restart a per-puzzle countdown. -/
def loadPuzzle (env : Env) (now : Int) (index : Nat) (s : SessionState) :
    SessionState × List Effect :=
  match env.puzzles.get? index with
  | none => finishSession env now s
  | some puzzle =>
    let game := gameLoad env.oracle puzzle.fen
    let targets := analyzeTargets env.oracle game.fen
    let badMovesList := puzzle.bad_moves
    let wChecksCount := countValidMoves env.config targets.w.checks badMovesList
    let wCapturesCount := countValidMoves env.config targets.w.captures badMovesList
    let bChecksCount := countValidMoves env.config targets.b.checks badMovesList
    let bCapturesCount := countValidMoves env.config targets.b.captures badMovesList
    let stats := { s.stats with
      wChecks := { s.stats.wChecks with total := s.stats.wChecks.total + wChecksCount },
      wCaptures := { s.stats.wCaptures with total := s.stats.wCaptures.total + wCapturesCount },
      bChecks := { s.stats.bChecks with total := s.stats.bChecks.total + bChecksCount },
      bCaptures := { s.stats.bCaptures with total := s.stats.bCaptures.total + bCapturesCount },
      totalMovesAvailable := s.stats.totalMovesAvailable +
        (wChecksCount + wCapturesCount + bChecksCount + bCapturesCount) }
    let orientation :=
      if env.config.autoFlip then
        if env.oracle.turn game.fen = Color.w then "white" else "black"
      else "white"
    let status1 :=
      if env.config.timeLimit > 0 ∧ env.config.timeMode = TimeMode.perPuzzle then
        { s.status with limitEndTime := now + env.config.timeLimit * MS_PER_SECOND }
      else s.status
    let timerEff :=
      if env.config.timeLimit > 0 ∧ env.config.timeMode = TimeMode.perPuzzle then
        [Effect.startTimer true]
      else []
    ({ s with
        game := game
        foundMoves := []
        targets := targets
        currentStageIndex := 0
        isDelayActive := false
        stats := stats
        status := status1 },
     [Effect.clearPersistentShapes, Effect.clearLogs,
      Effect.setPosition game.fen orientation, Effect.updateUI,
      Effect.setStatus "Удачи!" "#0050b3"] ++ timerEff)

/-- `nextPuzzle()`. -/
def nextPuzzle (env : Env) (now : Int) (s : SessionState) :
    SessionState × List Effect :=
  let s1 := { s with currentPuzzleIndex := s.currentPuzzleIndex + 1 }
  loadPuzzle env now s1.currentPuzzleIndex s1

/-- `_handleTimeout()`. -/
def handleTimeout (env : Env) (now : Int) (s : SessionState) :
    SessionState × List Effect :=
  let s1 := { s with status := pauseTimer now s.status }
  if env.config.timeMode = TimeMode.total then
    (s1, [Effect.showTimeoutModal])
  else
    (s1, [Effect.setStatus "Время вышло!" "red",
      Effect.schedule .timeoutAdvance DELAYS_TIMEOUT_DISPLAY])

/-- The state built by the constructor plus `start()` up to the first
puzzle load. -/
def initialState (now : Int) : SessionState :=
  { currentPuzzleIndex := 0
    stats := initialStats
    game := { fen := "rnbqkbnr/pppppppp/8/8/8/8/PPPPPPPP/RNBQKBNR w KQkq - 0 1", hist := [] }
    foundMoves := []
    targets := emptyTargetColors
    currentStageIndex := 0
    isDelayActive := false
    status := { sessionStartTime := now
                limitEndTime := 0
                isPaused := false
                pauseStartTime := 0 }
    finished := false }

/-- `start()`: set the session start epoch, start the session timer (a
countdown in total mode), and load the first puzzle. -/
def sessionStart (env : Env) (now : Int) : SessionState × List Effect :=
  let s0 := initialState now
  let withTimer :=
    if env.config.timeLimit > 0 ∧ env.config.timeMode = TimeMode.total then
      ({ s0 with status := { s0.status with
          limitEndTime := now + env.config.timeLimit * MS_PER_SECOND } },
       [Effect.startTimer true])
    else (s0, [Effect.startTimer false])
  let (s1, eff1) := loadPuzzle env now 0 withTimer.1
  (s1, withTimer.2 ++ eff1)

-- ==========================================
-- Event steps and reachability
-- ==========================================

/-- One externally triggered event of a live (non-destroyed) session: a
user move, a scheduled bad-move resolution, a scheduled next-puzzle
transition, or a timer expiry.  (This over-approximates the scheduler: it
allows any resolution or transition event, which only widens the set of
states the invariants are proved for.) -/
inductive Step (env : Env) : SessionState → SessionState → Prop where
  | move (now : Int) (orig dest : String) (s : SessionState)
      (h : s.finished = false) :
      Step env s (handleMove env now orig dest s).1
  | resolve (now : Int) (ms : Bool) (s : SessionState)
      (h : s.finished = false) :
      Step env s (resolveBadMove env now ms s).1
  | nextP (now : Int) (s : SessionState) (h : s.finished = false) :
      Step env s (nextPuzzle env now s).1
  | timeout (now : Int) (s : SessionState) (h : s.finished = false) :
      Step env s (handleTimeout env now s).1

/-- A session state reachable from some session start by event steps. -/
def Reachable (env : Env) (s : SessionState) : Prop :=
  ∃ now0 : Int, Relation.ReflTransGen (Step env) (sessionStart env now0).1 s

-- ==========================================
-- Invariants
-- ==========================================

/-- The distinct required keys not yet found, over an explicit found set. -/
def missingOf (cfg : Config) (t : TargetColors) (bml : List BadMoveSpec)
    (found : List String) : List String :=
  ((requiredKeys cfg t bml).dedup).filter (fun k => !(found.contains k))

/-- The distinct required keys of the current puzzle not yet found. -/
def missingKeys (env : Env) (s : SessionState) : List String :=
  missingOf env.config s.targets (currentBadMoves env s) s.foundMoves

/-- Counting invariant: the moves still required of the current puzzle fit
in the gap between found and available. -/
def MainInv (env : Env) (s : SessionState) : Prop :=
  s.stats.totalMovesFound + (missingKeys env s).length ≤
    s.stats.totalMovesAvailable

/-- Sequential-mode invariant: every stage below the current stage index is
satisfied by the current found set, and the index never exceeds the stage
count. -/
def StageInvB (env : Env) (s : SessionState) : Bool :=
  decide (s.currentStageIndex ≤ STAGES.length) &&
  (List.range s.currentStageIndex).all (fun i =>
    match STAGES.get? i with
    | some st => stageSatisfied env.config s.targets (currentBadMoves env s)
        s.foundMoves st
    | none => true)

/-- The lookup maps of every color are exactly the maps built from the
corresponding lists (true of every `TargetMoves` value the source ever
stores). -/
def TargetsCoherent (t : TargetColors) : Prop :=
  ∀ c : Color, (targetsFor t c).checksMap = buildMoveMap (targetsFor t c).checks ∧
    (targetsFor t c).capturesMap = buildMoveMap (targetsFor t c).captures

instance (t : TargetColors) : Decidable (TargetsCoherent t) := by
  unfold TargetsCoherent
  infer_instance

/-- The full inductive invariant: found never exceeds available, and on a
live session the counting and stage invariants hold and the stored target
maps cohere with the stored target lists. -/
def InvP (env : Env) (s : SessionState) : Prop :=
  s.stats.totalMovesFound ≤ s.stats.totalMovesAvailable ∧
  TargetsCoherent s.targets ∧
  (s.finished = false → MainInv env s ∧ StageInvB env s = true)

-- ==========================================
-- Abbreviations for handleMove outcome states
-- ==========================================

/-- The state after only the click counter moved (off-target and
already-found outcomes). -/
def clickOnly (s : SessionState) : SessionState :=
  { s with stats := { s.stats with totalClicks := s.stats.totalClicks + 1 } }

/-- The state entering the bad-move branch: click and error counters moved
and the bad move attempted on the live game. -/
def badMoveState (O : Oracle) (s : SessionState) (orig dest : String) :
    SessionState :=
  { s with
    stats := { s.stats with
      totalClicks := s.stats.totalClicks + 1
      totalErrors := s.stats.totalErrors + 1 }
    game := (gameMove O s.game orig dest).1 }

/-- The scripted refutation of a bad-move entry (`null` for bare strings). -/
def refutationOf : Option BadMoveSpec → Option String
  | some (.scripted bm) => bm.refutation
  | _ => none

-- ==========================================
-- A small concrete oracle and fixtures (used by witnesses)
-- ==========================================

/-- A toy position: white rook alone, white to move. -/
def P0fen : String := "8/8/8/8/8/8/8/R7 w - - 0 1"

/-- The toy position with black to move. -/
def P0fenB : String := "8/8/8/8/8/8/8/R7 b - - 0 1"

/-- The toy position after the rook move, black to move. -/
def PAfen : String := "8/R7/8/8/8/8/8/8 b - - 0 1"

/-- The toy position after the rook move, white to move. -/
def PAfenW : String := "8/R7/8/8/8/8/8/8 w - - 0 1"

/-- The single legal move of the toy oracle: a rook move that both captures
and delivers check. -/
def mv1 : MoveData :=
  { fromSq := "a1", toSq := "a2", san := "Ra2", flags := "c", piece := "r" }

/-- A tiny deterministic oracle: in `P0fen` with white to move the only
legal move is `mv1`, which captures and leaves black in check. -/
def toyOracle : Oracle where
  loadOpt := fun f => some f
  normalizeFen := fun f => f
  legalMoves := fun f => if f == P0fen then [mv1] else []
  applyMoveObj := fun f m => if f == P0fen && m == mv1 then PAfen else f
  inCheck := fun f => f == PAfen
  pieceAt := fun f sq =>
    if f == P0fen && sq == "a1" then some ⟨Color.w, "r"⟩ else none
  moveFromTo := fun f a b =>
    if f == P0fen && a == "a1" && b == "a2" then some (mv1, PAfen) else none
  moveSan := fun _ _ => none
  turn := fun _ => Color.w

/-- A toy puzzle without bad moves. -/
def pz1 : Puzzle := { id := 1, fen := P0fen, bad_moves := [] }

/-- A toy puzzle whose only target is a scripted bad move with an
unresolvable refutation. -/
def pz2 : Puzzle :=
  { id := 2, fen := P0fen,
    bad_moves := [.scripted { san := "Ra2", refutation := some "Rb8" }] }

/-- A toy puzzle whose only target is a bare bad-move string. -/
def pz3 : Puzzle := { id := 3, fen := P0fen, bad_moves := [.plain "Ra2"] }

/-- Free-play configuration, no time limit. -/
def cfgFree : Config :=
  { goodMovesOnly := false, sequentialMode := false, timeLimit := 0,
    timeMode := .perPuzzle, autoFlip := false, highlightFound := true,
    hideLegalMoves := false }

/-- Good-moves-only configuration. -/
def cfgGMO : Config := { cfgFree with goodMovesOnly := true }

/-- Sequential-mode configuration. -/
def cfgSeq : Config := { cfgFree with sequentialMode := true }

/-- Free-play environment over the toy oracle. -/
def envFree : Env :=
  { oracle := toyOracle, puzzles := [pz1], config := cfgFree,
    previouslySolvedIds := [] }

/-- Good-moves-only environment whose puzzle has a scripted bad move. -/
def envGMO : Env := { envFree with puzzles := [pz2], config := cfgGMO }

/-- Good-moves-only environment whose every target is excluded. -/
def envGMOX : Env := { envFree with puzzles := [pz3], config := cfgGMO }

/-- Sequential-mode environment. -/
def envSeq : Env := { envFree with config := cfgSeq }

/-- The free environment session right after the first puzzle load. -/
def s0Free : SessionState := (sessionStart envFree 0).1

/-- The free environment session after playing the only target move. -/
def s1Free : SessionState := (handleMove envFree 0 "a1" "a2" s0Free).1

/-- The good-moves-only session right after the first puzzle load. -/
def s0GMO : SessionState := (sessionStart envGMO 0).1

/-- The excluded-targets session right after the first puzzle load. -/
def s0GMOX : SessionState := (sessionStart envGMOX 0).1

/-- The free session finished right after solving the only puzzle. -/
def sDone : SessionState := (nextPuzzle envFree 0 s1Free).1

/-- The free session finished without any move played. -/
def sIdleFinish : SessionState := (nextPuzzle envFree 0 s0Free).1

/-- A concrete running status-manager state. -/
def st4 : StatusState :=
  { sessionStartTime := 100, limitEndTime := 5000, isPaused := false,
    pauseStartTime := 0 }

theorem mapKeys_mapSet (m : MoveMap) (k : String) (vd : MoveData) :
    mapKeys (mapSet m k vd) =
      if (m.any fun p => p.1 == k) = true then mapKeys m
      else mapKeys m ++ [k] := by
  unfold mapSet mapKeys
  by_cases hany : (m.any fun p => p.1 == k) = true
  · rw [if_pos hany, if_pos hany, List.map_map]
    apply List.map_congr_left
    intro p hp
    by_cases hpk : (p.1 == k) = true
    · simp only [Function.comp_apply, hpk, if_true]
      exact (beq_iff_eq.mp hpk).symm
    · simp only [Function.comp_apply]
      rw [if_neg hpk]
  · rw [if_neg hany, if_neg hany]
    simp

theorem any_key_mem (m : MoveMap) (k : String)
    (hany : (m.any fun p => p.1 == k) = true) : k ∈ mapKeys m := by
  rcases List.any_eq_true.mp hany with ⟨p, hp, hpk⟩
  have hk : p.1 = k := beq_iff_eq.mp hpk
  unfold mapKeys
  exact hk ▸ List.mem_map.mpr ⟨p, hp, rfl⟩

theorem mapKeys_mapSet_mem (m : MoveMap) (k : String) (vd : MoveData)
    {x : String} :
    x ∈ mapKeys (mapSet m k vd) ↔ x = k ∨ x ∈ mapKeys m := by
  rw [mapKeys_mapSet]
  by_cases hany : (m.any fun p => p.1 == k) = true
  · rw [if_pos hany]
    constructor
    · exact Or.inr
    · rintro (rfl | hx)
      · exact any_key_mem m x hany
      · exact hx
  · rw [if_neg hany]
    simp only [List.mem_append, List.mem_cons, List.not_mem_nil, or_false]
    tauto

theorem mem_mapKeys_buildMoveMap (l : List MoveData) (k : String) :
    k ∈ mapKeys (buildMoveMap l) ↔ k ∈ l.map keyOf := by
  suffices h : ∀ acc : MoveMap,
      k ∈ mapKeys (l.foldl (fun acc m => mapSet acc (keyOf m) m) acc) ↔
        k ∈ mapKeys acc ∨ k ∈ l.map keyOf by
    have := h []
    simpa [buildMoveMap, mapKeys] using this
  induction l with
  | nil =>
    intro acc
    simp
  | cons m rest ih =>
    intro acc
    simp only [List.foldl_cons, List.map_cons, List.mem_cons]
    rw [ih (mapSet acc (keyOf m) m), mapKeys_mapSet_mem]
    tauto

theorem mem_mapSet (m : MoveMap) (k : String) (vd : MoveData)
    (p : String × MoveData)
    (hp : p ∈ mapSet m k vd) : p ∈ m ∨ p = (k, vd) := by
  unfold mapSet at hp
  by_cases hany : (m.any fun q => q.1 == k) = true
  · rw [if_pos hany] at hp
    rcases List.mem_map.mp hp with ⟨q, hq, hpq⟩
    by_cases hqk : (q.1 == k) = true
    · rw [if_pos hqk] at hpq
      exact Or.inr hpq.symm
    · rw [if_neg hqk] at hpq
      exact Or.inl (hpq ▸ hq)
  · rw [if_neg hany] at hp
    rcases List.mem_append.mp hp with hp | hp
    · exact Or.inl hp
    · rcases List.mem_singleton.mp hp with rfl
      exact Or.inr rfl

/-- Every entry of the built map is an element of the source list, stored
under its own key. -/
theorem mem_buildMoveMap (l : List MoveData) (p : String × MoveData)
    (hp : p ∈ buildMoveMap l) : p.2 ∈ l ∧ keyOf p.2 = p.1 := by
  have main : ∀ (rest : List MoveData), (∀ m ∈ rest, m ∈ l) →
      ∀ acc : MoveMap, (∀ q ∈ acc, q.2 ∈ l ∧ keyOf q.2 = q.1) →
      ∀ q ∈ rest.foldl (fun acc m => mapSet acc (keyOf m) m) acc,
        q.2 ∈ l ∧ keyOf q.2 = q.1 := by
    intro rest
    induction rest with
    | nil =>
      intro _ acc hacc q hq
      exact hacc q hq
    | cons m ms ih =>
      intro hsub acc hacc q hq
      simp only [List.foldl_cons] at hq
      refine ih (fun x hx => hsub x (List.mem_cons_of_mem m hx))
        (mapSet acc (keyOf m) m) ?_ q hq
      intro r hr
      rcases mem_mapSet acc (keyOf m) m r hr with hr | hr
      · exact hacc r hr
      · subst hr
        exact ⟨hsub m (List.mem_cons_self m ms), rfl⟩
  exact main l (fun _ hx => hx) []
    (fun q hq => absurd hq (List.not_mem_nil q)) p hp

theorem mapGet_eq_some (m : MoveMap) (k : String) (v : MoveData)
    (h : mapGet m k = some v) : (k, v) ∈ m := by
  unfold mapGet at h
  cases hfind : m.find? (fun p => p.1 == k) with
  | none =>
    rw [hfind] at h
    exact absurd h (by simp)
  | some p =>
    rw [hfind] at h
    simp only [Option.map_some'] at h
    have hmem := List.mem_of_find?_eq_some hfind
    have hpred := List.find?_some hfind
    have hk : p.1 = k := beq_iff_eq.mp hpred
    have hv : p.2 = v := Option.some.inj h
    have hpkv : p = (k, v) := Prod.ext hk hv
    exact hpkv ▸ hmem

/-- A successful O(1) lookup in a built map returns an element of the source
list whose from-to key is the looked-up key. -/
theorem mapGet_buildMoveMap (l : List MoveData) (k : String) (m : MoveData)
    (h : mapGet (buildMoveMap l) k = some m) :
    m ∈ l ∧ keyOf m = k := by
  exact mem_buildMoveMap l (k, m) (mapGet_eq_some (buildMoveMap l) k m h)


-- ==========================================
-- Claim C2: soundness of the Target Analyzer lists
-- ==========================================

theorem targetsFor_analyzeTargets (O : Oracle) (fen : String) (c : Color) :
    targetsFor (analyzeTargets O fen) c = getMovesForColor O fen c := by
  cases c <;> rfl

/-- C2: every move the Target Analyzer places in `targets[C].checks` leaves
the opponent in check when applied on the scratch copy of the position with
side-to-move forced to `C` (en passant cleared), and every move placed in
`targets[C].captures` carries a capture flag (ordinary capture or
en-passant capture). -/
theorem claim_C2 (O : Oracle) (fen : String) (c : Color) (m : MoveData) :
    (m ∈ (targetsFor (analyzeTargets O fen) c).checks →
      ∃ pos, O.loadOpt (forceFen fen c) = some pos ∧
        O.inCheck (O.applyMoveObj pos m) = true) ∧
    (m ∈ (targetsFor (analyzeTargets O fen) c).captures →
      (m.flags.data.contains 'c' || m.flags.data.contains 'e') = true) := by
  rw [targetsFor_analyzeTargets]
  unfold getMovesForColor
  cases hload : O.loadOpt (forceFen fen c) with
  | none =>
    constructor
    · intro hm
      simp [emptyTargetMoves] at hm
    · intro hm
      simp [emptyTargetMoves] at hm
  | some pos =>
    constructor
    · intro hm
      exact ⟨pos, rfl, (List.mem_filter.mp hm).2⟩
    · intro hm
      exact (List.mem_filter.mp hm).2

/-- Witness for C2: the toy oracle's rook move is listed as a check and as a
capture, and the conclusions hold at it. -/
theorem claim_C2_witness :
    (mv1 ∈ (targetsFor (analyzeTargets toyOracle P0fen) Color.w).checks ∧
      ∃ pos, toyOracle.loadOpt (forceFen P0fen Color.w) = some pos ∧
        toyOracle.inCheck (toyOracle.applyMoveObj pos mv1) = true) ∧
    (mv1 ∈ (targetsFor (analyzeTargets toyOracle P0fen) Color.w).captures ∧
      (mv1.flags.data.contains 'c' || mv1.flags.data.contains 'e') = true) := by
  have h := claim_C2 toyOracle P0fen Color.w mv1
  exact ⟨⟨by decide, h.1 (by decide)⟩, ⟨by decide, h.2 (by decide)⟩⟩

-- ==========================================
-- Claim C7: lookup maps are keywise bijective with the lists
-- ==========================================

/-- C7: for every position and color, the key set of `checksMap` equals the
set of from-to keys of the `checks` list, and likewise for `capturesMap`
and `captures`; a pair present in both lists therefore appears in both map
structures independently. -/
theorem claim_C7 (O : Oracle) (fen : String) (c : Color) (k : String) :
    (k ∈ mapKeys (targetsFor (analyzeTargets O fen) c).checksMap ↔
      k ∈ ((targetsFor (analyzeTargets O fen) c).checks).map keyOf) ∧
    (k ∈ mapKeys (targetsFor (analyzeTargets O fen) c).capturesMap ↔
      k ∈ ((targetsFor (analyzeTargets O fen) c).captures).map keyOf) := by
  rw [targetsFor_analyzeTargets]
  unfold getMovesForColor
  cases hload : O.loadOpt (forceFen fen c) with
  | none => simp [emptyTargetMoves, mapKeys]
  | some pos =>
    exact ⟨mem_mapKeys_buildMoveMap _ k, mem_mapKeys_buildMoveMap _ k⟩

-- ==========================================
-- Claim C4: pause/resume timer arithmetic
-- ==========================================

/-- C4: pausing at `t` and resuming at `t + d` shifts the session start
epoch forward by exactly `d`, so elapsed time is frozen during the pause
and never includes `d` afterwards; with a countdown active the deadline is
shifted forward by exactly `d`, so the remaining countdown time at resume
equals the remaining time at pause. -/
theorem claim_C4 (st : StatusState) (t d : Int) (isCountdown : Bool)
    (hp : st.isPaused = false) :
    (resumeTimer (t + d) isCountdown (pauseTimer t st)).sessionStartTime =
        st.sessionStartTime + d ∧
    (resumeTimer (t + d) isCountdown (pauseTimer t st)).isPaused = false ∧
    (∀ now : Int, getElapsedTime now (pauseTimer t st) = getElapsedTime t st) ∧
    (∀ now : Int,
      getElapsedTime now (resumeTimer (t + d) isCountdown (pauseTimer t st)) =
        getElapsedTime (now - d) st) ∧
    (isCountdown = true →
      (resumeTimer (t + d) isCountdown (pauseTimer t st)).limitEndTime =
          st.limitEndTime + d ∧
      (resumeTimer (t + d) isCountdown (pauseTimer t st)).limitEndTime - (t + d) =
          st.limitEndTime - t) ∧
    (isCountdown = false →
      (resumeTimer (t + d) isCountdown (pauseTimer t st)).limitEndTime =
        st.limitEndTime) := by
  cases isCountdown with
  | true =>
    refine ⟨?_, ?_, ?_, ?_, ?_, ?_⟩
    · simp [pauseTimer, resumeTimer, hp]
    · simp [pauseTimer, resumeTimer, hp]
    · intro now
      simp [pauseTimer, getElapsedTime, hp]
    · intro now
      simp only [pauseTimer, resumeTimer, getElapsedTime, hp]
      norm_num
      congr 1
      ring
    · intro _
      constructor
      · simp [pauseTimer, resumeTimer, hp]
      · simp [pauseTimer, resumeTimer, hp]
    · intro hcontra
      exact Bool.noConfusion hcontra
  | false =>
    refine ⟨?_, ?_, ?_, ?_, ?_, ?_⟩
    · simp [pauseTimer, resumeTimer, hp]
    · simp [pauseTimer, resumeTimer, hp]
    · intro now
      simp [pauseTimer, getElapsedTime, hp]
    · intro now
      simp only [pauseTimer, resumeTimer, getElapsedTime, hp]
      norm_num
      congr 1
      ring
    · intro hcontra
      exact Bool.noConfusion hcontra
    · intro _
      simp [pauseTimer, resumeTimer, hp]

/-- Witness for C4 at a concrete running timer. -/
theorem claim_C4_witness :
    st4.isPaused = false ∧
    (resumeTimer (200 + 50) true (pauseTimer 200 st4)).sessionStartTime =
      st4.sessionStartTime + 50 ∧
    (resumeTimer (200 + 50) true (pauseTimer 200 st4)).limitEndTime =
      st4.limitEndTime + 50 := by
  have h := claim_C4 st4 200 50 true rfl
  exact ⟨rfl, h.1, (h.2.2.2.2.1 rfl).1⟩

-- ==========================================
-- Helper lemmas about the transition functions
-- ==========================================

theorem pauseTimer_isPaused (now : Int) (st : StatusState) :
    (pauseTimer now st).isPaused = true := by
  unfold pauseTimer
  split
  · next h => exact h
  · rfl

theorem resumeTimer_isPaused (now : Int) (b : Bool) (st : StatusState)
    (h : st.isPaused = true) : (resumeTimer now b st).isPaused = false := by
  unfold resumeTimer
  rw [h]
  rfl

theorem gameMove_restore (O : Oracle) (g : GameState) (a b : String) :
    (if (gameMove O g a b).2.isSome then gameUndo (gameMove O g a b).1
     else (gameMove O g a b).1) = g := by
  unfold gameMove
  cases h : O.moveFromTo g.fen a b with
  | none => rfl
  | some p =>
    cases p with
    | mk md f => rfl

theorem handleBadMoveRefutation_state (env : Env) (now : Int)
    (refSan : Option String) (pc : Color) (a b : String) (ms : Bool)
    (s : SessionState) :
    (handleBadMoveRefutation env now refSan pc a b ms s).1 =
      { s with isDelayActive := true, status := pauseTimer now s.status } := rfl

theorem handleBadMoveRefutation_schedules (env : Env) (now : Int)
    (refSan : Option String) (pc : Color) (a b : String) (ms : Bool)
    (s : SessionState) :
    Effect.schedule (.badMoveResolution ms) DELAYS_BAD_MOVE_REFUTATION ∈
      (handleBadMoveRefutation env now refSan pc a b ms s).2 := by
  simp only [handleBadMoveRefutation]
  simp

theorem handleBadMoveRefutation_unresolved (env : Env) (now : Int)
    (r : String) (pc : Color) (a b : String) (ms : Bool) (s : SessionState)
    (hr : resolveRefutation env.oracle
        (refutationFen env.oracle s.game.fen pc a b) r = none) :
    Effect.setStatus ("Ошибка: Не могу показать ход " ++ r) "red" ∈
      (handleBadMoveRefutation env now (some r) pc a b ms s).2 := by
  simp only [handleBadMoveRefutation, hr]
  simp

theorem handleBadMoveRefutation_no_transition (env : Env) (now : Int)
    (refSan : Option String) (pc : Color) (a b : String) (ms : Bool)
    (s : SessionState) (d : Nat) :
    Effect.schedule .puzzleTransition d ∉
      (handleBadMoveRefutation env now refSan pc a b ms s).2 := by
  simp only [handleBadMoveRefutation]
  cases refSan with
  | none => simp
  | some r =>
    dsimp only
    cases hr : resolveRefutation env.oracle
        (refutationFen env.oracle s.game.fen pc a b) r with
    | none => simp
    | some m => simp

theorem resolveBadMove_state (env : Env) (now : Int) (ms : Bool)
    (s : SessionState) :
    (resolveBadMove env now ms s).1 =
      { s with
        game := if ms then gameUndo s.game else s.game
        isDelayActive := false
        status := resumeTimer now (decide (env.config.timeLimit > 0)) s.status } := rfl

theorem resolveBadMove_reverts (env : Env) (now : Int) (ms : Bool)
    (s : SessionState) :
    Effect.undoVisual (resolveBadMove env now ms s).1.game.fen ∈
      (resolveBadMove env now ms s).2 :=
  List.mem_cons_self _ _

theorem markSolvedState_char (env : Env) (s : SessionState) :
    ∃ n, (markSolvedState env s).1 =
      { s with stats := { s.stats with
          solvedCount := s.stats.solvedCount + 1
          newPuzzlesSolved := n } } := by
  unfold markSolvedState
  dsimp only
  cases hp : env.puzzles.get? s.currentPuzzleIndex with
  | none => exact ⟨s.stats.newPuzzlesSolved, rfl⟩
  | some p =>
    dsimp only
    by_cases hid : p.id ≠ 0
    · rw [if_pos hid]
      cases hprev : env.previouslySolvedIds.contains p.id with
      | true => exact ⟨s.stats.newPuzzlesSolved, rfl⟩
      | false => exact ⟨s.stats.newPuzzlesSolved + 1, rfl⟩
    · rw [if_neg hid]
      exact ⟨s.stats.newPuzzlesSolved, rfl⟩

theorem checkStageCompletion_char (env : Env) (s : SessionState) :
    ∃ a n,
      (checkStageCompletion env s).1 = { s with
        currentStageIndex := advanceStages (stageSat env s) s.currentStageIndex
        stats := { s.stats with solvedCount := a, newPuzzlesSolved := n } } ∧
      (STAGES.length ≤ advanceStages (stageSat env s) s.currentStageIndex →
        a = s.stats.solvedCount + 1) ∧
      (advanceStages (stageSat env s) s.currentStageIndex < STAGES.length →
        a = s.stats.solvedCount ∧ n = s.stats.newPuzzlesSolved) := by
  unfold checkStageCompletion
  by_cases hc : STAGES.length ≤ advanceStages (stageSat env s) s.currentStageIndex
  · rw [if_pos hc]
    rcases markSolvedState_char env
        { s with currentStageIndex := advanceStages (stageSat env s) s.currentStageIndex }
      with ⟨n, hn⟩
    refine ⟨s.stats.solvedCount + 1, n, ?_, fun _ => rfl, fun hlt => absurd hc (not_le.mpr hlt)⟩
    rw [hn]
  · rw [if_neg hc]
    refine ⟨s.stats.solvedCount, s.stats.newPuzzlesSolved, ?_, fun hle => absurd hle hc,
      fun _ => ⟨rfl, rfl⟩⟩
    rfl

theorem mem_allTargets_checks (t : TargetColors) (c : Color) (m : MoveData)
    (h : m ∈ (targetsFor t c).checks) : m ∈ allTargetsList t := by
  cases c <;> simp [allTargetsList, targetsFor] at * <;> tauto

theorem mem_allTargets_captures (t : TargetColors) (c : Color) (m : MoveData)
    (h : m ∈ (targetsFor t c).captures) : m ∈ allTargetsList t := by
  cases c <;> simp [allTargetsList, targetsFor] at * <;> tauto

theorem targetMove_mem (s : SessionState) (c : Color) (mk : String)
    (tm : MoveData) (hco : TargetsCoherent s.targets)
    (htm : targetMoveOf s c mk = some tm) :
    tm ∈ allTargetsList s.targets ∧ keyOf tm = mk := by
  unfold targetMoveOf at htm
  cases hfc : foundCheckOf s c mk with
  | some m =>
    rw [hfc, Option.some_orElse'] at htm
    have hm : m = tm := Option.some.inj htm
    subst hm
    unfold foundCheckOf at hfc
    rw [(hco c).1] at hfc
    have hmm := mapGet_buildMoveMap _ _ _ hfc
    exact ⟨mem_allTargets_checks _ _ _ hmm.1, hmm.2⟩
  | none =>
    rw [hfc, Option.none_orElse'] at htm
    unfold foundCaptureOf at htm
    rw [(hco c).2] at htm
    have hmm := mapGet_buildMoveMap _ _ _ htm
    exact ⟨mem_allTargets_captures _ _ _ hmm.1, hmm.2⟩

theorem isBadMove_eq_isSome (san : String) (l : List BadMoveSpec) :
    isBadMove san l = (findBadMoveObj san l).isSome := by
  unfold isBadMove findBadMoveObj
  induction l with
  | nil => rfl
  | cons x xs ih =>
    by_cases hx : (x.sanOf == san) = true
    · simp [hx]
    · have hx2 : (x.sanOf == san) = false := by simpa using hx
      simp [hx2, ih]

theorem isValidMove_of_notBad (cfg : Config) (m : MoveData)
    (bml : List BadMoveSpec)
    (h : cfg.goodMovesOnly = true → findBadMoveObj m.san bml = none) :
    isValidMove cfg m bml = true := by
  unfold isValidMove
  cases hg : cfg.goodMovesOnly with
  | false => simp
  | true =>
    rw [isBadMove_eq_isSome, h hg]
    simp

theorem required_of_valid (cfg : Config) (t : TargetColors)
    (bml : List BadMoveSpec) (m : MoveData) (hm : m ∈ allTargetsList t)
    (hv : isValidMove cfg m bml = true) :
    keyOf m ∈ requiredKeys cfg t bml := by
  unfold requiredKeys
  exact List.mem_map.mpr ⟨m, List.mem_filter.mpr ⟨hm, hv⟩, rfl⟩

-- ==========================================
-- The case analysis of _handleMove
-- ==========================================

theorem handleMove_char (env : Env) (now : Int) (orig dest : String)
    (s : SessionState) :
    (handleMove env now orig dest s = (s, [undoEffect s]) ∧
      ((env.config.timeLimit > 0 ∧ now > s.status.limitEndTime) ∨
        s.isDelayActive = true ∨
        env.oracle.pieceAt s.game.fen orig = none ∨
        (∃ piece, env.oracle.pieceAt s.game.fen orig = some piece ∧
          sanOfMove env s orig dest piece.color = none)))
  ∨ (∃ piece san bmObj,
      env.oracle.pieceAt s.game.fen orig = some piece ∧
      sanOfMove env s orig dest piece.color = some san ∧
      findBadMoveObj san (currentBadMoves env s) = some bmObj ∧
      env.config.goodMovesOnly = true ∧
      handleMove env now orig dest s =
        handleBadMoveRefutation env now (refutationOf (some bmObj)) piece.color
          orig dest (gameMove env.oracle s.game orig dest).2.isSome
          (badMoveState env.oracle s orig dest))
  ∨ (∃ piece san,
      env.oracle.pieceAt s.game.fen orig = some piece ∧
      sanOfMove env s orig dest piece.color = some san ∧
      targetMoveOf s piece.color (getMoveKey orig dest) = none ∧
      (env.config.goodMovesOnly = true →
        findBadMoveObj san (currentBadMoves env s) = none) ∧
      handleMove env now orig dest s =
        (clickOnly s, [undoEffect (clickOnly s),
          Effect.setStatus "Мимо! Это не цель." "orange"]))
  ∨ (∃ piece san tm,
      env.oracle.pieceAt s.game.fen orig = some piece ∧
      sanOfMove env s orig dest piece.color = some san ∧
      targetMoveOf s piece.color (getMoveKey orig dest) = some tm ∧
      san = tm.san ∧
      (env.config.goodMovesOnly = true →
        findBadMoveObj san (currentBadMoves env s) = none) ∧
      handleMove env now orig dest s =
        handleSuccess env orig dest piece.color (getMoveKey orig dest) san
          (foundCheckOf s piece.color (getMoveKey orig dest))
          (foundCaptureOf s piece.color (getMoveKey orig dest))
          (findBadMoveObj san (currentBadMoves env s)).isSome
          (clickOnly s)) := by
  by_cases h1 : env.config.timeLimit > 0 ∧ now > s.status.limitEndTime
  · left
    refine ⟨?_, Or.inl h1⟩
    unfold handleMove
    rw [if_pos h1]
  by_cases h2 : s.isDelayActive = true
  · left
    refine ⟨?_, Or.inr (Or.inl h2)⟩
    unfold handleMove
    rw [if_neg h1, if_pos h2]
  have h2f : s.isDelayActive = false := by simpa using h2
  cases hpiece : env.oracle.pieceAt s.game.fen orig with
  | none =>
    left
    refine ⟨?_, Or.inr (Or.inr (Or.inl rfl))⟩
    unfold handleMove
    rw [if_neg h1, if_neg h2, hpiece]
  | some piece =>
    cases hsan : sanOfMove env s orig dest piece.color with
    | none =>
      left
      refine ⟨?_, Or.inr (Or.inr (Or.inr ⟨piece, rfl, hsan⟩))⟩
      unfold handleMove
      rw [if_neg h1, if_neg h2, hpiece]
      simp only [hsan]
    | some san =>
      have hkey : handleMove env now orig dest s =
          (if env.config.goodMovesOnly then
            if (findBadMoveObj san (currentBadMoves env s)).isSome then
              handleBadMoveRefutation env now
                (refutationOf (findBadMoveObj san (currentBadMoves env s)))
                piece.color orig dest
                (gameMove env.oracle s.game orig dest).2.isSome
                (badMoveState env.oracle s orig dest)
            else if (targetMoveOf s piece.color (getMoveKey orig dest)).isNone then
              (clickOnly s, [undoEffect (clickOnly s),
                Effect.setStatus "Мимо! Это не цель." "orange"])
            else
              handleSuccess env orig dest piece.color (getMoveKey orig dest) san
                (foundCheckOf s piece.color (getMoveKey orig dest))
                (foundCaptureOf s piece.color (getMoveKey orig dest))
                (findBadMoveObj san (currentBadMoves env s)).isSome (clickOnly s)
          else if (targetMoveOf s piece.color (getMoveKey orig dest)).isNone then
            (clickOnly s, [undoEffect (clickOnly s),
              Effect.setStatus "Мимо! Это не цель." "orange"])
          else
            handleSuccess env orig dest piece.color (getMoveKey orig dest) san
              (foundCheckOf s piece.color (getMoveKey orig dest))
              (foundCaptureOf s piece.color (getMoveKey orig dest))
              (findBadMoveObj san (currentBadMoves env s)).isSome (clickOnly s)) := by
        unfold handleMove
        rw [if_neg h1, if_neg h2, hpiece]
        simp only [hsan]
        rfl
      cases hbad : findBadMoveObj san (currentBadMoves env s) with
      | some bmObj =>
        by_cases hgmo : env.config.goodMovesOnly = true
        · right; left
          refine ⟨piece, san, bmObj, rfl, hsan, hbad, hgmo, ?_⟩
          rw [hkey, if_pos hgmo, hbad]
          simp
        · have hgf : env.config.goodMovesOnly = false := by simpa using hgmo
          cases htm : targetMoveOf s piece.color (getMoveKey orig dest) with
          | none =>
            right; right; left
            refine ⟨piece, san, rfl, hsan, htm,
              fun hg => absurd hg hgmo, ?_⟩
            rw [hkey, if_neg hgmo, htm]
            rfl
          | some tm =>
            right; right; right
            have hsan2 : san = tm.san := by
              unfold sanOfMove at hsan
              rw [htm] at hsan
              exact (Option.some.inj hsan).symm
            refine ⟨piece, san, tm, rfl, hsan, htm, hsan2,
              fun hg => absurd hg hgmo, ?_⟩
            rw [hkey, if_neg hgmo, htm]
            rfl
      | none =>
        cases htm : targetMoveOf s piece.color (getMoveKey orig dest) with
        | none =>
          right; right; left
          refine ⟨piece, san, rfl, hsan, htm, fun _ => hbad, ?_⟩
          rw [hkey, htm, hbad]
          by_cases hgmo : env.config.goodMovesOnly = true
          · rw [if_pos hgmo]
            rfl
          · rw [if_neg hgmo]
            rfl
        | some tm =>
          right; right; right
          have hsan2 : san = tm.san := by
            unfold sanOfMove at hsan
            rw [htm] at hsan
            exact (Option.some.inj hsan).symm
          refine ⟨piece, san, tm, rfl, hsan, htm, hsan2, fun _ => hbad, ?_⟩
          rw [hkey, htm, hbad]
          by_cases hgmo : env.config.goodMovesOnly = true
          · rw [if_pos hgmo]
            rfl
          · rw [if_neg hgmo]
            rfl

-- ==========================================
-- advanceStages lemmas
-- ==========================================

theorem advanceStages_ge (sat : Nat → Bool) (i : Nat) :
    i ≤ advanceStages sat i := by
  unfold advanceStages
  split
  · split
    · exact le_trans (Nat.le_succ i) (advanceStages_ge sat (i + 1))
    · exact le_refl i
  · exact le_refl i
termination_by STAGES.length - i

theorem advanceStages_le (sat : Nat → Bool) (i : Nat)
    (h : i ≤ STAGES.length) : advanceStages sat i ≤ STAGES.length := by
  unfold advanceStages
  split
  · split
    · next hlt _ => exact advanceStages_le sat (i + 1) hlt
    · exact h
  · exact h
termination_by STAGES.length - i

theorem advanceStages_sat (sat : Nat → Bool) (i : Nat) :
    ∀ j, i ≤ j → j < advanceStages sat i → sat j = true := by
  intro j hij hj
  rw [advanceStages] at hj
  by_cases hlt : i < STAGES.length
  · rw [dif_pos hlt] at hj
    by_cases hsat : sat i = true
    · rw [if_pos hsat] at hj
      rcases Nat.lt_or_ge j (i + 1) with hji | hji
      · have : j = i := Nat.le_antisymm (Nat.lt_succ_iff.mp hji) hij
        rw [this]
        exact hsat
      · exact advanceStages_sat sat (i + 1) j hji hj
    · rw [if_neg hsat] at hj
      exact absurd hj (Nat.not_lt.mpr hij)
  · rw [dif_neg hlt] at hj
    exact absurd hj (Nat.not_lt.mpr hij)
termination_by STAGES.length - i

-- ==========================================
-- handleSuccess characterization
-- ==========================================

theorem successStats_totalClicks (pc : Color) (fc fcap : Option MoveData)
    (st : SessionStats) :
    (successStats pc fc fcap st).totalClicks = st.totalClicks := by
  unfold successStats
  split_ifs <;> rfl

theorem successStats_totalErrors (pc : Color) (fc fcap : Option MoveData)
    (st : SessionStats) :
    (successStats pc fc fcap st).totalErrors = st.totalErrors := by
  unfold successStats
  split_ifs <;> rfl

theorem successStats_totalMovesFound (pc : Color) (fc fcap : Option MoveData)
    (st : SessionStats) :
    (successStats pc fc fcap st).totalMovesFound = st.totalMovesFound + 1 := by
  unfold successStats
  split_ifs <;> rfl

theorem successStats_totalMovesAvailable (pc : Color) (fc fcap : Option MoveData)
    (st : SessionStats) :
    (successStats pc fc fcap st).totalMovesAvailable = st.totalMovesAvailable := by
  unfold successStats
  split_ifs <;> rfl

theorem stage_case_split {A L : Nat} {P Q : Prop} (hge : L ≤ A → P)
    (hlt : A < L → Q) : (L ≤ A ∧ P) ∨ (A < L ∧ Q) := by
  rcases Nat.lt_or_ge A L with h | h
  · exact Or.inr ⟨h, hlt h⟩
  · exact Or.inl ⟨h, hge h⟩

theorem successStats_solvedCount (pc : Color) (fc fcap : Option MoveData)
    (st : SessionStats) :
    (successStats pc fc fcap st).solvedCount = st.solvedCount := by
  unfold successStats
  split_ifs <;> rfl

theorem successStats_newPuzzlesSolved (pc : Color) (fc fcap : Option MoveData)
    (st : SessionStats) :
    (successStats pc fc fcap st).newPuzzlesSolved = st.newPuzzlesSolved := by
  unfold successStats
  split_ifs <;> rfl

theorem handleSuccess_char (env : Env) (orig dest : String) (pc : Color)
    (mk san : String) (fc fcap : Option MoveData) (mib : Bool)
    (s : SessionState) :
    (s.foundMoves.contains mk = true ∧
      handleSuccess env orig dest pc mk san fc fcap mib s =
        (s, [Effect.playSound "already", Effect.setStatus "Уже нашли!" "blue",
          undoEffect s]))
  ∨ (s.foundMoves.contains mk = false ∧
      ((env.config.sequentialMode = true ∧
        (handleSuccess env orig dest pc mk san fc fcap mib s).1 =
          (checkStageCompletion env { s with
            foundMoves := mk :: s.foundMoves
            stats := successStats pc fc fcap s.stats }).1) ∨
       (env.config.sequentialMode = false ∧
        checkIfAllFound env.config s.targets (currentBadMoves env s)
          (mk :: s.foundMoves) = true ∧
        (handleSuccess env orig dest pc mk san fc fcap mib s).1 =
          (markSolvedState env { s with
            foundMoves := mk :: s.foundMoves
            stats := successStats pc fc fcap s.stats }).1) ∨
       (env.config.sequentialMode = false ∧
        checkIfAllFound env.config s.targets (currentBadMoves env s)
          (mk :: s.foundMoves) = false ∧
        (handleSuccess env orig dest pc mk san fc fcap mib s).1 =
          { s with
            foundMoves := mk :: s.foundMoves
            stats := successStats pc fc fcap s.stats } ∧
        (∀ d : Nat, Effect.schedule .puzzleTransition d ∉
          (handleSuccess env orig dest pc mk san fc fcap mib s).2)))) := by
  by_cases hfound : s.foundMoves.contains mk = true
  · left
    refine ⟨hfound, ?_⟩
    unfold handleSuccess
    rw [if_pos hfound]
  · have hfoundf : s.foundMoves.contains mk = false := by simpa using hfound
    right
    refine ⟨hfoundf, ?_⟩
    by_cases hseq : env.config.sequentialMode = true
    · left
      refine ⟨hseq, ?_⟩
      unfold handleSuccess
      rw [if_neg hfound, if_pos hseq]
    · have hseqf : env.config.sequentialMode = false := by simpa using hseq
      by_cases hall : checkIfAllFound env.config s.targets
          (currentBadMoves env s) (mk :: s.foundMoves) = true
      · right; left
        refine ⟨hseqf, hall, ?_⟩
        unfold handleSuccess
        rw [if_neg hfound, if_neg hseq]
        dsimp only
        rw [if_pos hall]
      · have hallf : checkIfAllFound env.config s.targets
            (currentBadMoves env s) (mk :: s.foundMoves) = false := by
          simpa using hall
        right; right
        refine ⟨hseqf, hallf, ?_, ?_⟩
        · unfold handleSuccess
          rw [if_neg hfound, if_neg hseq]
          dsimp only
          rw [if_neg hall]
        · intro d
          unfold handleSuccess
          rw [if_neg hfound, if_neg hseq]
          dsimp only
          rw [if_neg hall]
          simp only [List.mem_append, List.mem_cons, List.mem_singleton]
          split_ifs <;> simp

theorem handleSuccess_stats_base (env : Env) (orig dest : String) (pc : Color)
    (mk san : String) (fc fcap : Option MoveData) (mib : Bool)
    (s : SessionState) :
    (handleSuccess env orig dest pc mk san fc fcap mib s).1.stats.totalClicks =
        s.stats.totalClicks ∧
    (handleSuccess env orig dest pc mk san fc fcap mib s).1.stats.totalErrors =
        s.stats.totalErrors ∧
    (handleSuccess env orig dest pc mk san fc fcap mib s).1.stats.totalMovesAvailable =
        s.stats.totalMovesAvailable := by
  rcases handleSuccess_char env orig dest pc mk san fc fcap mib s with
    ⟨_, heq⟩ | ⟨_, hrest⟩
  · rw [heq]
    exact ⟨rfl, rfl, rfl⟩
  · rcases hrest with ⟨_, heq⟩ | ⟨_, _, heq⟩ | ⟨_, _, heq, _⟩
    · rcases checkStageCompletion_char env { s with
          foundMoves := mk :: s.foundMoves
          stats := successStats pc fc fcap s.stats } with ⟨a, n, hrec, _⟩
      rw [heq, hrec]
      exact ⟨successStats_totalClicks pc fc fcap s.stats,
        successStats_totalErrors pc fc fcap s.stats,
        successStats_totalMovesAvailable pc fc fcap s.stats⟩
    · rcases markSolvedState_char env { s with
          foundMoves := mk :: s.foundMoves
          stats := successStats pc fc fcap s.stats } with ⟨n, hrec⟩
      rw [heq, hrec]
      exact ⟨successStats_totalClicks pc fc fcap s.stats,
        successStats_totalErrors pc fc fcap s.stats,
        successStats_totalMovesAvailable pc fc fcap s.stats⟩
    · rw [heq]
      exact ⟨successStats_totalClicks pc fc fcap s.stats,
        successStats_totalErrors pc fc fcap s.stats,
        successStats_totalMovesAvailable pc fc fcap s.stats⟩

-- ==========================================
-- Claim C3: the bad-move penalty sequence
-- ==========================================

/-- C3: in good-moves-only mode, when the user plays a move whose SAN
exactly matches a bad-move entry (with no deadline expired and input not
locked), the error counter is incremented, input is locked and the timer
paused immediately, the penalty resolution is scheduled for the fixed
bad-move delay, and running that resolution undoes the move on the live
game if it had been applied, visually reverts the board, unlocks input and
resumes the timer — the live game after resolution equals the game before
the bad move. -/
theorem claim_C3 (env : Env) (s : SessionState) (now : Int)
    (orig dest : String) (piece : Piece) (san : String) (bmObj : BadMoveSpec)
    (hgmo : env.config.goodMovesOnly = true)
    (hdl : ¬(env.config.timeLimit > 0 ∧ now > s.status.limitEndTime))
    (hdelay : s.isDelayActive = false)
    (hpiece : env.oracle.pieceAt s.game.fen orig = some piece)
    (hsan : sanOfMove env s orig dest piece.color = some san)
    (hbad : findBadMoveObj san (currentBadMoves env s) = some bmObj) :
    (handleMove env now orig dest s).1.stats.totalErrors =
        s.stats.totalErrors + 1 ∧
    (handleMove env now orig dest s).1.isDelayActive = true ∧
    (handleMove env now orig dest s).1.status.isPaused = true ∧
    Effect.schedule
        (.badMoveResolution (gameMove env.oracle s.game orig dest).2.isSome)
        DELAYS_BAD_MOVE_REFUTATION ∈ (handleMove env now orig dest s).2 ∧
    (∀ now2 : Int,
      (resolveBadMove env now2 (gameMove env.oracle s.game orig dest).2.isSome
          (handleMove env now orig dest s).1).1.game = s.game ∧
      (resolveBadMove env now2 (gameMove env.oracle s.game orig dest).2.isSome
          (handleMove env now orig dest s).1).1.isDelayActive = false ∧
      (resolveBadMove env now2 (gameMove env.oracle s.game orig dest).2.isSome
          (handleMove env now orig dest s).1).1.status.isPaused = false ∧
      Effect.undoVisual s.game.fen ∈
        (resolveBadMove env now2 (gameMove env.oracle s.game orig dest).2.isSome
          (handleMove env now orig dest s).1).2) := by
  rcases handleMove_char env now orig dest s with
    ⟨_, hwhy⟩ | ⟨p, sn, bo, hp, hs, hb, _, heq⟩ |
    ⟨p, sn, hp, hs, htm, hnb, _⟩ | ⟨p, sn, tm, hp, hs, htm, hsn, hnb, _⟩
  · rcases hwhy with h | h | h | ⟨p, hp, hn⟩
    · exact absurd h hdl
    · rw [hdelay] at h
      exact absurd h (by simp)
    · rw [hpiece] at h
      exact absurd h (by simp)
    · rw [hpiece] at hp
      have hpp : p = piece := (Option.some.inj hp).symm
      subst hpp
      rw [hsan] at hn
      exact absurd hn (by simp)
  · rw [hpiece] at hp
    have hpp : p = piece := (Option.some.inj hp).symm
    subst hpp
    rw [hsan] at hs
    have hss : sn = san := (Option.some.inj hs).symm
    subst hss
    rw [heq, handleBadMoveRefutation_state]
    refine ⟨rfl, rfl, pauseTimer_isPaused _ _, ?_, ?_⟩
    · rw [heq] at *
      exact handleBadMoveRefutation_schedules env now _ _ orig dest _ _
    · intro now2
      refine ⟨?_, rfl, ?_, ?_⟩
      · rw [resolveBadMove_state]
        exact gameMove_restore env.oracle s.game orig dest
      · rw [resolveBadMove_state]
        exact resumeTimer_isPaused _ _ _ (pauseTimer_isPaused _ _)
      · have hrev := resolveBadMove_reverts env now2
          (gameMove env.oracle s.game orig dest).2.isSome
          { badMoveState env.oracle s orig dest with
            isDelayActive := true
            status := pauseTimer now (badMoveState env.oracle s orig dest).status }
        have hg : (resolveBadMove env now2
            (gameMove env.oracle s.game orig dest).2.isSome
            { badMoveState env.oracle s orig dest with
              isDelayActive := true
              status := pauseTimer now (badMoveState env.oracle s orig dest).status }).1.game =
            s.game := by
          rw [resolveBadMove_state]
          exact gameMove_restore env.oracle s.game orig dest
        rw [hg] at hrev
        exact hrev
  · rw [hpiece] at hp
    have hpp : p = piece := (Option.some.inj hp).symm
    subst hpp
    rw [hsan] at hs
    have hss : sn = san := (Option.some.inj hs).symm
    subst hss
    rw [hnb hgmo] at hbad
    exact absurd hbad (by simp)
  · rw [hpiece] at hp
    have hpp : p = piece := (Option.some.inj hp).symm
    subst hpp
    rw [hsan] at hs
    have hss : sn = san := (Option.some.inj hs).symm
    subst hss
    rw [hnb hgmo] at hbad
    exact absurd hbad (by simp)

/-- Witness for C3 at the toy good-moves-only session. -/
theorem claim_C3_witness :
    envGMO.config.goodMovesOnly = true ∧
    (handleMove envGMO 5 "a1" "a2" s0GMO).1.stats.totalErrors =
      s0GMO.stats.totalErrors + 1 ∧
    (handleMove envGMO 5 "a1" "a2" s0GMO).1.isDelayActive = true ∧
    (handleMove envGMO 5 "a1" "a2" s0GMO).1.status.isPaused = true ∧
    (resolveBadMove envGMO 7 (gameMove envGMO.oracle s0GMO.game "a1" "a2").2.isSome
        (handleMove envGMO 5 "a1" "a2" s0GMO).1).1.game = s0GMO.game := by
  have h := claim_C3 envGMO s0GMO 5 "a1" "a2" ⟨Color.w, "r"⟩ "Ra2"
    (.scripted { san := "Ra2", refutation := some "Rb8" })
    (by decide) (by decide) (by decide) (by decide) (by decide) (by decide)
  exact ⟨rfl, h.1, h.2.1, h.2.2.1, (h.2.2.2.2 7).1⟩

-- ==========================================
-- Claim C6: click counting (corrected)
-- ==========================================

/-- Counterexample to C6 as stated: an attempt from an empty origin square
(classified illegal) does not increment the click counter, with no deadline
expired and input unlocked. -/
theorem claim_C6_counterexample :
    envFree.config.timeLimit = 0 ∧
    s0Free.isDelayActive = false ∧
    envFree.oracle.pieceAt s0Free.game.fen "h8" = none ∧
    (handleMove envFree 0 "h8" "h7" s0Free).1.stats.totalClicks =
      s0Free.stats.totalClicks := by
  decide

/-- C6 (amended): with no deadline expired and input not locked, the click
counter is incremented exactly when the attempt resolves to a piece on the
origin square together with a SAN (so for every legal attempt, regardless
of its classification); attempts rejected as illegal leave it unchanged. -/
theorem claim_C6 (env : Env) (s : SessionState) (now : Int)
    (orig dest : String)
    (hdl : ¬(env.config.timeLimit > 0 ∧ now > s.status.limitEndTime))
    (hdelay : s.isDelayActive = false) :
    ((∃ piece san, env.oracle.pieceAt s.game.fen orig = some piece ∧
        sanOfMove env s orig dest piece.color = some san) →
      (handleMove env now orig dest s).1.stats.totalClicks =
        s.stats.totalClicks + 1) ∧
    ((env.oracle.pieceAt s.game.fen orig = none ∨
      (∃ piece, env.oracle.pieceAt s.game.fen orig = some piece ∧
        sanOfMove env s orig dest piece.color = none)) →
      (handleMove env now orig dest s).1.stats.totalClicks =
        s.stats.totalClicks) := by
  rcases handleMove_char env now orig dest s with
    ⟨heq, hwhy⟩ | ⟨p, sn, bo, hp, hs, hb, _, heq⟩ |
    ⟨p, sn, hp, hs, htm, hnb, heq⟩ | ⟨p, sn, tm, hp, hs, htm, hsn, hnb, heq⟩
  · constructor
    · intro ⟨piece, san, hpiece, hsan⟩
      rcases hwhy with h | h | h | ⟨q, hq, hqn⟩
      · exact absurd h hdl
      · rw [hdelay] at h
        exact absurd h (by simp)
      · rw [hpiece] at h
        exact absurd h (by simp)
      · rw [hpiece] at hq
        have : q = piece := (Option.some.inj hq).symm
        subst this
        rw [hsan] at hqn
        exact absurd hqn (by simp)
    · intro _
      rw [heq]
  · constructor
    · intro _
      rw [heq, handleBadMoveRefutation_state]
      rfl
    · intro hill
      rcases hill with h | ⟨q, hq, hqn⟩
      · rw [hp] at h
        exact absurd h (by simp)
      · rw [hp] at hq
        have : q = p := (Option.some.inj hq).symm
        subst this
        rw [hs] at hqn
        exact absurd hqn (by simp)
  · constructor
    · intro _
      rw [heq]
      rfl
    · intro hill
      rcases hill with h | ⟨q, hq, hqn⟩
      · rw [hp] at h
        exact absurd h (by simp)
      · rw [hp] at hq
        have : q = p := (Option.some.inj hq).symm
        subst this
        rw [hs] at hqn
        exact absurd hqn (by simp)
  · constructor
    · intro _
      rw [heq]
      exact (handleSuccess_stats_base env orig dest p.color (getMoveKey orig dest)
        sn (foundCheckOf s p.color (getMoveKey orig dest))
        (foundCaptureOf s p.color (getMoveKey orig dest))
        (findBadMoveObj sn (currentBadMoves env s)).isSome (clickOnly s)).1
    · intro hill
      rcases hill with h | ⟨q, hq, hqn⟩
      · rw [hp] at h
        exact absurd h (by simp)
      · rw [hp] at hq
        have : q = p := (Option.some.inj hq).symm
        subst this
        rw [hs] at hqn
        exact absurd hqn (by simp)

/-- Witness for C6 (amended) at the toy session: the legal rook move
increments the click counter. -/
theorem claim_C6_witness :
    (handleMove envFree 0 "a1" "a2" s0Free).1.stats.totalClicks =
      s0Free.stats.totalClicks + 1 := by
  have h := claim_C6 envFree s0Free 0 "a1" "a2" (by decide) (by decide)
  exact h.1 ⟨⟨Color.w, "r"⟩, "Ra2", by decide, by decide⟩

-- ==========================================
-- Claim C8: the three-tier refutation resolution
-- ==========================================

/-- C8: the Refutation Simulator resolves a scripted refutation SAN in
exactly three tiers in order — exact SAN parse, match after stripping
`+`/`#`/`x` from both sides, then match by destination square plus
piece-type letter with pawn as the default when no leading piece letter is
present (first candidate wins) — and when no tier resolves it the handler
emits a visible cannot-display status and still schedules the penalty
resolution on time. -/
theorem claim_C8 :
    (∀ (O : Oracle) (fen r : String),
      resolveRefutation O fen r =
        (refutTier1 O fen r).orElse
          (fun _ => (refutTier2 O fen r).orElse (fun _ => refutTier3 O fen r))) ∧
    (∀ (O : Oracle) (fen r : String) (sq : String),
      firstSquare r = some sq →
      (∀ c cs, r.data = c :: cs →
        ¬(c = 'K' ∨ c = 'Q' ∨ c = 'R' ∨ c = 'B' ∨ c = 'N')) →
      refutTier3 O fen r =
        ((O.legalMoves fen).filter
          (fun m => m.toSq == sq && m.piece == "p")).head?) ∧
    (∀ (env : Env) (now : Int) (r : String) (pc : Color) (a b : String)
        (ms : Bool) (s : SessionState),
      resolveRefutation env.oracle
          (refutationFen env.oracle s.game.fen pc a b) r = none →
      Effect.setStatus ("Ошибка: Не могу показать ход " ++ r) "red" ∈
        (handleBadMoveRefutation env now (some r) pc a b ms s).2) ∧
    (∀ (env : Env) (now : Int) (refSan : Option String) (pc : Color)
        (a b : String) (ms : Bool) (s : SessionState),
      Effect.schedule (.badMoveResolution ms) DELAYS_BAD_MOVE_REFUTATION ∈
        (handleBadMoveRefutation env now refSan pc a b ms s).2) := by
  refine ⟨?_, ?_, ?_, ?_⟩
  · intro O fen r
    unfold resolveRefutation
    cases h1 : refutTier1 O fen r with
    | some m => rfl
    | none =>
      cases h2 : refutTier2 O fen r with
      | some m => rfl
      | none =>
        simp only [Option.none_orElse']
  · intro O fen r sq hsq hnp
    unfold refutTier3
    rw [hsq]
    have hpc : pieceCharOf r = 'p' := by
      unfold pieceCharOf
      cases hd : r.data with
      | nil => rfl
      | cons c cs =>
        have := hnp c cs hd
        have hfalse : (c == 'K' || c == 'Q' || c == 'R' || c == 'B' || c == 'N') = false := by
          simp only [Bool.or_eq_false_iff, beq_eq_false_iff_ne, ne_eq]
          tauto
        simp [hfalse]
    rw [hpc]
    rfl
  · intro env now r pc a b ms s hnone
    exact handleBadMoveRefutation_unresolved env now r pc a b ms s hnone
  · intro env now refSan pc a b ms s
    exact handleBadMoveRefutation_schedules env now refSan pc a b ms s

/-- Witness for C8 at the toy oracle: the refutation SAN `Rb8` cannot be
resolved after the toy bad move, and the cannot-display status is emitted
while the penalty resolution is still scheduled. -/
theorem claim_C8_witness :
    resolveRefutation envGMO.oracle
        (refutationFen envGMO.oracle s0GMO.game.fen Color.w "a1" "a2") "Rb8" =
      none ∧
    Effect.setStatus ("Ошибка: Не могу показать ход " ++ "Rb8") "red" ∈
      (handleBadMoveRefutation envGMO 5 (some "Rb8") Color.w "a1" "a2" true
        s0GMO).2 ∧
    Effect.schedule (.badMoveResolution true) DELAYS_BAD_MOVE_REFUTATION ∈
      (handleBadMoveRefutation envGMO 5 (some "Rb8") Color.w "a1" "a2" true
        s0GMO).2 := by
  have h := claim_C8
  exact ⟨by decide,
    h.2.2.1 envGMO 5 "Rb8" Color.w "a1" "a2" true s0GMO (by decide),
    h.2.2.2 envGMO 5 (some "Rb8") Color.w "a1" "a2" true s0GMO⟩

-- ==========================================
-- Claim C10: completion is evaluated only on successful moves
-- ==========================================

/-- C10: puzzle completion is never evaluated at puzzle load — loading
neither increments the solved counter nor schedules a next-puzzle
transition — and a puzzle whose non-excluded target key set is empty is
never marked solved by a move and never triggers an automatic next-puzzle
transition (in any mode): the move handler leaves the solved counter
unchanged and schedules no transition. -/
theorem claim_C10 :
    (∀ (env : Env) (now : Int) (idx : Nat) (s : SessionState),
      (loadPuzzle env now idx s).1.stats.solvedCount = s.stats.solvedCount ∧
      (∀ d : Nat, Effect.schedule .puzzleTransition d ∉
        (loadPuzzle env now idx s).2)) ∧
    (∀ (env : Env) (now : Int) (orig dest : String) (s : SessionState),
      TargetsCoherent s.targets →
      requiredKeys env.config s.targets (currentBadMoves env s) = [] →
      (handleMove env now orig dest s).1.stats.solvedCount =
        s.stats.solvedCount ∧
      (∀ d : Nat, Effect.schedule .puzzleTransition d ∉
        (handleMove env now orig dest s).2)) := by
  constructor
  · intro env now idx s
    unfold loadPuzzle
    cases hp : env.puzzles.get? idx with
    | none =>
      constructor
      · rfl
      · intro d
        unfold finishSession
        simp
    | some p =>
      constructor
      · rfl
      · intro d
        dsimp only
        split_ifs <;> simp
  · intro env now orig dest s hco hreq
    rcases handleMove_char env now orig dest s with
      ⟨heq, _⟩ | ⟨p, sn, bo, hp, hs, hb, _, heq⟩ |
      ⟨p, sn, hp, hs, htm, hnb, heq⟩ | ⟨p, sn, tm, hp, hs, htm, hsn, hnb, heq⟩
    · rw [heq]
      exact ⟨rfl, by intro d; simp [undoEffect]⟩
    · rw [heq]
      constructor
      · rw [handleBadMoveRefutation_state]
        rfl
      · intro d
        exact handleBadMoveRefutation_no_transition env now _ _ orig dest _ _ d
    · rw [heq]
      exact ⟨rfl, by intro d; simp [undoEffect]⟩
    · exfalso
      have hmem := targetMove_mem s p.color (getMoveKey orig dest) tm hco htm
      have hval : isValidMove env.config tm (currentBadMoves env s) = true := by
        apply isValidMove_of_notBad
        intro hg
        rw [← hsn]
        exact hnb hg
      have hk := required_of_valid env.config s.targets (currentBadMoves env s)
        tm hmem.1 hval
      rw [hreq] at hk
      exact absurd hk (List.not_mem_nil _)

/-- Witness for C10: in the toy good-moves-only environment whose single
target is excluded as a bad move, playing that move changes nothing about
completion. -/
theorem claim_C10_witness :
    requiredKeys envGMOX.config s0GMOX.targets (currentBadMoves envGMOX s0GMOX) = [] ∧
    (handleMove envGMOX 0 "a1" "a2" s0GMOX).1.stats.solvedCount =
      s0GMOX.stats.solvedCount ∧
    (loadPuzzle envFree 0 0 s0Free).1.stats.solvedCount =
      s0Free.stats.solvedCount := by
  refine ⟨by decide, ?_, ?_⟩
  · exact ((claim_C10.2) envGMOX 0 "a1" "a2" s0GMOX (by decide) (by decide)).1
  · exact ((claim_C10.1) envFree 0 0 s0Free).1

-- ==========================================
-- Counting lemmas for the main invariant
-- ==========================================

theorem dedup_append_le (a b : List String) :
    (a ++ b).dedup.length ≤ a.dedup.length + b.dedup.length := by
  rw [← List.card_toFinset, ← List.card_toFinset, ← List.card_toFinset,
    List.toFinset_append]
  exact Finset.card_union_le _ _

theorem requiredKeys_split (cfg : Config) (t : TargetColors)
    (bml : List BadMoveSpec) :
    requiredKeys cfg t bml =
      ((t.w.checks.filter fun m => isValidMove cfg m bml).map keyOf) ++
      ((t.w.captures.filter fun m => isValidMove cfg m bml).map keyOf) ++
      ((t.b.checks.filter fun m => isValidMove cfg m bml).map keyOf) ++
      ((t.b.captures.filter fun m => isValidMove cfg m bml).map keyOf) := by
  unfold requiredKeys allTargetsList
  simp [List.filter_append, List.map_append]

theorem requiredKeys_dedup_le (cfg : Config) (t : TargetColors)
    (bml : List BadMoveSpec) :
    (requiredKeys cfg t bml).dedup.length ≤
      countValidMoves cfg t.w.checks bml + countValidMoves cfg t.w.captures bml +
      countValidMoves cfg t.b.checks bml + countValidMoves cfg t.b.captures bml := by
  rw [requiredKeys_split]
  calc ((((t.w.checks.filter fun m => isValidMove cfg m bml).map keyOf) ++
          ((t.w.captures.filter fun m => isValidMove cfg m bml).map keyOf) ++
          ((t.b.checks.filter fun m => isValidMove cfg m bml).map keyOf) ++
          ((t.b.captures.filter fun m => isValidMove cfg m bml).map keyOf)).dedup).length ≤
      (((t.w.checks.filter fun m => isValidMove cfg m bml).map keyOf) ++
        ((t.w.captures.filter fun m => isValidMove cfg m bml).map keyOf) ++
        ((t.b.checks.filter fun m => isValidMove cfg m bml).map keyOf)).dedup.length +
      ((t.b.captures.filter fun m => isValidMove cfg m bml).map keyOf).dedup.length :=
        dedup_append_le _ _
    _ ≤ ((((t.w.checks.filter fun m => isValidMove cfg m bml).map keyOf) ++
          ((t.w.captures.filter fun m => isValidMove cfg m bml).map keyOf)).dedup.length +
        ((t.b.checks.filter fun m => isValidMove cfg m bml).map keyOf).dedup.length) +
        ((t.b.captures.filter fun m => isValidMove cfg m bml).map keyOf).dedup.length :=
        Nat.add_le_add_right (dedup_append_le _ _) _
    _ ≤ ((((t.w.checks.filter fun m => isValidMove cfg m bml).map keyOf).dedup.length +
          ((t.w.captures.filter fun m => isValidMove cfg m bml).map keyOf).dedup.length) +
        ((t.b.checks.filter fun m => isValidMove cfg m bml).map keyOf).dedup.length) +
        ((t.b.captures.filter fun m => isValidMove cfg m bml).map keyOf).dedup.length :=
        Nat.add_le_add_right (Nat.add_le_add_right (dedup_append_le _ _) _) _
    _ = countValidMoves cfg t.w.checks bml + countValidMoves cfg t.w.captures bml +
        countValidMoves cfg t.b.checks bml + countValidMoves cfg t.b.captures bml := rfl

theorem missingOf_nil (cfg : Config) (t : TargetColors) (bml : List BadMoveSpec) :
    missingOf cfg t bml [] = (requiredKeys cfg t bml).dedup := by
  unfold missingOf
  exact List.filter_eq_self.mpr (fun a _ => rfl)

theorem missingOf_length_le (cfg : Config) (t : TargetColors)
    (bml : List BadMoveSpec) (found : List String) :
    (missingOf cfg t bml found).length ≤ (requiredKeys cfg t bml).dedup.length :=
  List.length_filter_le _ _

theorem contains_cons_eq (l : List String) (k x : String) :
    (k :: l).contains x = (x == k || l.contains x) := rfl

theorem missingOf_cons (cfg : Config) (t : TargetColors) (bml : List BadMoveSpec)
    (found : List String) (k : String)
    (hk : k ∈ requiredKeys cfg t bml) (hnf : found.contains k = false) :
    (missingOf cfg t bml (k :: found)).length + 1 =
      (missingOf cfg t bml found).length := by
  have hkd : k ∈ (requiredKeys cfg t bml).dedup := List.mem_dedup.mpr hk
  have hmem : k ∈ missingOf cfg t bml found := by
    unfold missingOf
    refine List.mem_filter.mpr ⟨hkd, ?_⟩
    rw [hnf]
    rfl
  have hnodup : (missingOf cfg t bml found).Nodup :=
    (List.nodup_dedup _).filter _
  have hstep : missingOf cfg t bml (k :: found) =
      (missingOf cfg t bml found).filter (fun x => x != k) := by
    unfold missingOf
    rw [List.filter_filter]
    apply List.filter_congr
    intro x _
    rw [contains_cons_eq]
    cases h1 : x == k <;> cases h2 : found.contains x <;>
      simp [bne, h1, h2]
  rw [hstep, ← List.Nodup.erase_eq_filter hnodup k,
    List.length_erase_of_mem hmem]
  have hpos : 0 < (missingOf cfg t bml found).length :=
    List.length_pos.mpr (List.ne_nil_of_mem hmem)
  omega

theorem stageSatisfied_mono (cfg : Config) (t : TargetColors)
    (bml : List BadMoveSpec) (f1 f2 : List String) (st : Stage)
    (hsub : ∀ x, f1.contains x = true → f2.contains x = true)
    (h : stageSatisfied cfg t bml f1 st = true) :
    stageSatisfied cfg t bml f2 st = true := by
  unfold stageSatisfied at *
  have h1 : stageRequired cfg t bml st ≤ stageFound cfg t bml f1 st := by
    exact of_decide_eq_true h
  have h2 : stageFound cfg t bml f1 st ≤ stageFound cfg t bml f2 st := by
    unfold stageFound
    apply List.countP_mono_left
    intro m _ hm
    simp only [Bool.and_eq_true] at hm
    rcases hm with ⟨hv, hc⟩
    rw [hv, hsub _ hc]
    rfl
  exact decide_eq_true (le_trans h1 h2)

-- ==========================================
-- Invariant preservation
-- ==========================================

theorem analyzeTargets_coherent (O : Oracle) (fen : String) :
    TargetsCoherent (analyzeTargets O fen) := by
  intro c
  rw [targetsFor_analyzeTargets]
  unfold getMovesForColor
  cases O.loadOpt (forceFen fen c) with
  | none => exact ⟨rfl, rfl⟩
  | some pos => exact ⟨rfl, rfl⟩

theorem emptyTargets_coherent : TargetsCoherent emptyTargetColors := by
  intro c
  cases c <;> exact ⟨rfl, rfl⟩

theorem loadPuzzle_InvP (env : Env) (now : Int) (s : SessionState)
    (h1 : s.stats.totalMovesFound ≤ s.stats.totalMovesAvailable)
    (h2 : TargetsCoherent s.targets) :
    InvP env (loadPuzzle env now s.currentPuzzleIndex s).1 := by
  unfold loadPuzzle
  cases hp : env.puzzles.get? s.currentPuzzleIndex with
  | none =>
    exact ⟨h1, h2, fun hfin => absurd hfin (by simp [finishSession])⟩
  | some p =>
    dsimp only
    refine ⟨?_, analyzeTargets_coherent env.oracle _, fun _ => ⟨?_, ?_⟩⟩
    · exact le_trans h1 (Nat.le_add_right _ _)
    · unfold MainInv missingKeys currentBadMoves
      dsimp only
      rw [hp]
      dsimp only
      rw [missingOf_nil]
      have hle := requiredKeys_dedup_le env.config
        (analyzeTargets env.oracle (gameLoad env.oracle p.fen).fen) p.bad_moves
      omega
    · simp [StageInvB]

theorem stageInv_all (env : Env) (s : SessionState)
    (h : StageInvB env s = true) :
    ∀ i, i < s.currentStageIndex →
      stageSat env s i = true := by
  intro i hi
  unfold StageInvB at h
  simp only [Bool.and_eq_true] at h
  have hlen : i < STAGES.length :=
    lt_of_lt_of_le hi (of_decide_eq_true h.1)
  have hall := h.2
  rw [List.all_eq_true] at hall
  have hmem : i ∈ List.range s.currentStageIndex := List.mem_range.mpr hi
  have hthis := hall i hmem
  unfold stageSat
  cases hst : STAGES.get? i with
  | none =>
    have := List.get?_eq_none.mp hst
    omega
  | some st =>
    rw [hst] at hthis
    exact hthis

theorem stageInv_le (env : Env) (s : SessionState)
    (h : StageInvB env s = true) : s.currentStageIndex ≤ STAGES.length := by
  unfold StageInvB at h
  simp only [Bool.and_eq_true] at h
  exact of_decide_eq_true h.1

theorem stageInvB_intro (env : Env) (s : SessionState)
    (hle : s.currentStageIndex ≤ STAGES.length)
    (hall : ∀ i, i < s.currentStageIndex → stageSat env s i = true) :
    StageInvB env s = true := by
  unfold StageInvB
  simp only [Bool.and_eq_true]
  refine ⟨decide_eq_true hle, ?_⟩
  rw [List.all_eq_true]
  intro i hmem
  have hi := List.mem_range.mp hmem
  have := hall i hi
  unfold stageSat at this
  cases hst : STAGES.get? i with
  | none => rfl
  | some st =>
    rw [hst] at this
    exact this

theorem currentBadMoves_congr (env : Env) (s1 s2 : SessionState)
    (h : s1.currentPuzzleIndex = s2.currentPuzzleIndex) :
    currentBadMoves env s1 = currentBadMoves env s2 := by
  unfold currentBadMoves
  rw [h]

theorem stageSat_congr (env : Env) (s1 s2 : SessionState)
    (ht : s1.targets = s2.targets)
    (hi : s1.currentPuzzleIndex = s2.currentPuzzleIndex)
    (hf : s1.foundMoves = s2.foundMoves) :
    stageSat env s1 = stageSat env s2 := by
  funext i
  unfold stageSat
  rw [ht, hf, currentBadMoves_congr env s1 s2 hi]

theorem stageSat_mono (env : Env) (s1 s2 : SessionState) (i : Nat)
    (h : stageSat env s1 i = true)
    (ht : s2.targets = s1.targets)
    (hi : s2.currentPuzzleIndex = s1.currentPuzzleIndex)
    (hsub : ∀ x, s1.foundMoves.contains x = true →
      s2.foundMoves.contains x = true) : stageSat env s2 i = true := by
  unfold stageSat at h ⊢
  split at h
  · rename_i st hst
    rw [ht, currentBadMoves_congr env s2 s1 hi]
    exact stageSatisfied_mono env.config s1.targets (currentBadMoves env s1)
      s1.foundMoves s2.foundMoves st hsub h
  · exact absurd h (by simp)

theorem contains_cons_of_contains (l : List String) (k x : String)
    (h : l.contains x = true) : (k :: l).contains x = true := by
  rw [contains_cons_eq, h]
  cases x == k <;> rfl

theorem mainInv_after_found (env : Env) (s : SessionState) (mk : String)
    (hk : mk ∈ requiredKeys env.config s.targets (currentBadMoves env s))
    (hnf : s.foundMoves.contains mk = false) (hmain : MainInv env s) :
    s.stats.totalMovesFound + 1 +
      (missingOf env.config s.targets (currentBadMoves env s)
        (mk :: s.foundMoves)).length ≤ s.stats.totalMovesAvailable := by
  have hmiss := missingOf_cons env.config s.targets (currentBadMoves env s)
    s.foundMoves mk hk hnf
  unfold MainInv missingKeys at hmain
  omega

theorem handleMove_InvP (env : Env) (now : Int) (orig dest : String)
    (s : SessionState) (hfin : s.finished = false) (hinv : InvP env s) :
    InvP env (handleMove env now orig dest s).1 := by
  obtain ⟨hfa, hco, himp⟩ := hinv
  obtain ⟨hmain, hstg⟩ := himp hfin
  rcases handleMove_char env now orig dest s with
    ⟨heq, _⟩ | ⟨p, sn, bo, hp, hs, hb, _, heq⟩ |
    ⟨p, sn, hp, hs, htm, hnb, heq⟩ | ⟨p, sn, tm, hp, hs, htm, hsn, hnb, heq⟩
  · rw [heq]
    exact ⟨hfa, hco, fun _ => ⟨hmain, hstg⟩⟩
  · rw [heq, handleBadMoveRefutation_state]
    exact ⟨hfa, hco, fun _ => ⟨hmain, hstg⟩⟩
  · rw [heq]
    exact ⟨hfa, hco, fun _ => ⟨hmain, hstg⟩⟩
  · -- success branch
    have hnf : s.foundMoves.contains (getMoveKey orig dest) = true ∨
        s.foundMoves.contains (getMoveKey orig dest) = false := by
      cases s.foundMoves.contains (getMoveKey orig dest)
      · exact Or.inr rfl
      · exact Or.inl rfl
    have hmem := targetMove_mem s p.color (getMoveKey orig dest) tm hco htm
    have hval : isValidMove env.config tm (currentBadMoves env s) = true := by
      apply isValidMove_of_notBad
      intro hg
      rw [← hsn]
      exact hnb hg
    have hk : getMoveKey orig dest ∈
        requiredKeys env.config s.targets (currentBadMoves env s) := by
      have := required_of_valid env.config s.targets (currentBadMoves env s)
        tm hmem.1 hval
      rw [hmem.2] at this
      exact this
    rcases handleSuccess_char env orig dest p.color (getMoveKey orig dest) sn
        (foundCheckOf s p.color (getMoveKey orig dest))
        (foundCaptureOf s p.color (getMoveKey orig dest))
        (findBadMoveObj sn (currentBadMoves env s)).isSome
        (clickOnly s) with
      ⟨_, heq2⟩ | ⟨hnf2, hrest⟩
    · rw [heq]
      rw [show (handleSuccess env orig dest p.color (getMoveKey orig dest) sn
          (foundCheckOf s p.color (getMoveKey orig dest))
          (foundCaptureOf s p.color (getMoveKey orig dest))
          (findBadMoveObj sn (currentBadMoves env s)).isSome
          (clickOnly s)).1 = clickOnly s by rw [heq2]]
      exact ⟨hfa, hco, fun _ => ⟨hmain, hstg⟩⟩
    · -- a new key is recorded
      have hnff : s.foundMoves.contains (getMoveKey orig dest) = false := hnf2
      have harith := mainInv_after_found env s (getMoveKey orig dest) hk hnff hmain
      have hfnd : (successStats p.color
          (foundCheckOf s p.color (getMoveKey orig dest))
          (foundCaptureOf s p.color (getMoveKey orig dest))
          (clickOnly s).stats).totalMovesFound = s.stats.totalMovesFound + 1 :=
        successStats_totalMovesFound _ _ _ _
      have havail : (successStats p.color
          (foundCheckOf s p.color (getMoveKey orig dest))
          (foundCaptureOf s p.color (getMoveKey orig dest))
          (clickOnly s).stats).totalMovesAvailable = s.stats.totalMovesAvailable :=
        successStats_totalMovesAvailable _ _ _ _
      -- the intermediate state after recording the key
      rcases hrest with ⟨hseq, heq3⟩ | ⟨hseqf, hall, heq3⟩ | ⟨hseqf, hallf, heq3, _⟩
      · -- sequential mode: stage advance
        rcases checkStageCompletion_char env { clickOnly s with
            foundMoves := getMoveKey orig dest :: (clickOnly s).foundMoves
            stats := successStats p.color
              (foundCheckOf s p.color (getMoveKey orig dest))
              (foundCaptureOf s p.color (getMoveKey orig dest))
              (clickOnly s).stats } with ⟨a, n, hrec, hsc⟩
        rw [heq, heq3, hrec]
        refine ⟨?_, hco, fun _ => ⟨?_, ?_⟩⟩
        · dsimp only
          rw [hfnd, havail]
          omega
        · unfold MainInv missingKeys
          dsimp only
          rw [hfnd, havail,
            currentBadMoves_congr env _ s (by rfl)]
          exact harith
        · apply stageInvB_intro
          · dsimp only
            exact advanceStages_le _ _ (stageInv_le env s hstg)
          · intro i hi
            dsimp only at hi
            rcases Nat.lt_or_ge i s.currentStageIndex with hzone | hzone
            · have hold := stageInv_all env s hstg i hzone
              exact stageSat_mono env s _ i hold rfl rfl
                (fun x hx => contains_cons_of_contains _ _ _ hx)
            · have hsat := advanceStages_sat _ _ i hzone hi
              exact stageSat_mono env _ _ i hsat rfl rfl (fun x hx => hx)
      · -- free mode, puzzle solved
        rcases markSolvedState_char env { clickOnly s with
            foundMoves := getMoveKey orig dest :: (clickOnly s).foundMoves
            stats := successStats p.color
              (foundCheckOf s p.color (getMoveKey orig dest))
              (foundCaptureOf s p.color (getMoveKey orig dest))
              (clickOnly s).stats } with ⟨n, hrec⟩
        rw [heq, heq3, hrec]
        refine ⟨?_, hco, fun _ => ⟨?_, ?_⟩⟩
        · dsimp only
          rw [hfnd, havail]
          omega
        · unfold MainInv missingKeys
          dsimp only
          rw [hfnd, havail,
            currentBadMoves_congr env _ s (by rfl)]
          exact harith
        · apply stageInvB_intro
          · dsimp only
            exact stageInv_le env s hstg
          · intro i hi
            dsimp only at hi
            have hold := stageInv_all env s hstg i hi
            exact stageSat_mono env s _ i hold rfl rfl
              (fun x hx => contains_cons_of_contains _ _ _ hx)
      · -- free mode, not yet solved
        rw [heq, heq3]
        refine ⟨?_, hco, fun _ => ⟨?_, ?_⟩⟩
        · dsimp only
          rw [hfnd, havail]
          omega
        · unfold MainInv missingKeys
          dsimp only
          rw [hfnd, havail,
            currentBadMoves_congr env _ s (by rfl)]
          exact harith
        · apply stageInvB_intro
          · dsimp only
            exact stageInv_le env s hstg
          · intro i hi
            dsimp only at hi
            have hold := stageInv_all env s hstg i hi
            exact stageSat_mono env s _ i hold rfl rfl
              (fun x hx => contains_cons_of_contains _ _ _ hx)

-- ==========================================
-- Step preservation and reachability
-- ==========================================

theorem step_InvP (env : Env) (s s' : SessionState) (hst : Step env s s')
    (hinv : InvP env s) : InvP env s' := by
  cases hst with
  | move now orig dest s4 hfin =>
    exact handleMove_InvP env now orig dest s hfin hinv
  | resolve now ms s4 hfin =>
    obtain ⟨hfa, hco, himp⟩ := hinv
    exact ⟨hfa, hco, fun hf => himp hf⟩
  | nextP now s4 hfin =>
    obtain ⟨hfa, hco, _⟩ := hinv
    exact loadPuzzle_InvP env now
      { s with currentPuzzleIndex := s.currentPuzzleIndex + 1 } hfa hco
  | timeout now s4 hfin =>
    obtain ⟨hfa, hco, himp⟩ := hinv
    unfold handleTimeout
    dsimp only
    split
    · exact ⟨hfa, hco, fun hf => himp hf⟩
    · exact ⟨hfa, hco, fun hf => himp hf⟩

theorem sessionStart_InvP (env : Env) (now0 : Int) :
    InvP env (sessionStart env now0).1 := by
  unfold sessionStart
  dsimp only
  split
  · exact loadPuzzle_InvP env now0
      { initialState now0 with status := { (initialState now0).status with
          limitEndTime := now0 + env.config.timeLimit * MS_PER_SECOND } }
      (Nat.le_refl _) emptyTargets_coherent
  · exact loadPuzzle_InvP env now0 (initialState now0)
      (Nat.le_refl _) emptyTargets_coherent

theorem reachable_InvP (env : Env) (s : SessionState)
    (h : Reachable env s) : InvP env s := by
  obtain ⟨now0, hr⟩ := h
  induction hr with
  | refl => exact sessionStart_InvP env now0
  | tail hab hbc ih => exact step_InvP env _ _ hbc ih

-- ==========================================
-- Claim C1: solved only when complete
-- ==========================================

/-- C1: a user move on a live reachable session changes the solved counter
only by incrementing it by exactly one, and only when the current puzzle
is complete: in free mode the post-state found set passes the all-found
superset test over the non-excluded required keys, and in sequential mode
the stage index has reached the end of the stage list with every stage
satisfied by the post-state found set. -/
theorem claim_C1 (env : Env) (now : Int) (orig dest : String)
    (s : SessionState) (hreach : Reachable env s)
    (hfin : s.finished = false)
    (hinc : (handleMove env now orig dest s).1.stats.solvedCount ≠
      s.stats.solvedCount) :
    (handleMove env now orig dest s).1.stats.solvedCount =
      s.stats.solvedCount + 1 ∧
    (env.config.sequentialMode = false →
      checkIfAllFound env.config (handleMove env now orig dest s).1.targets
        (currentBadMoves env (handleMove env now orig dest s).1)
        (handleMove env now orig dest s).1.foundMoves = true) ∧
    (env.config.sequentialMode = true →
      (handleMove env now orig dest s).1.currentStageIndex = STAGES.length ∧
      ∀ i, i < STAGES.length →
        stageSat env (handleMove env now orig dest s).1 i = true) := by
  obtain ⟨hfa, hco, himp⟩ := reachable_InvP env s hreach
  obtain ⟨hmain, hstg⟩ := himp hfin
  rcases handleMove_char env now orig dest s with
    ⟨heq, _⟩ | ⟨p, sn, bo, hp, hs, hb, _, heq⟩ |
    ⟨p, sn, hp, hs, htm, hnb, heq⟩ | ⟨p, sn, tm, hp, hs, htm, hsn, hnb, heq⟩
  · rw [heq] at hinc
    exact absurd rfl hinc
  · rw [heq, handleBadMoveRefutation_state] at hinc
    exact absurd rfl hinc
  · rw [heq] at hinc
    exact absurd rfl hinc
  · rcases handleSuccess_char env orig dest p.color (getMoveKey orig dest) sn
        (foundCheckOf s p.color (getMoveKey orig dest))
        (foundCaptureOf s p.color (getMoveKey orig dest))
        (findBadMoveObj sn (currentBadMoves env s)).isSome
        (clickOnly s) with
      ⟨_, heq2⟩ | ⟨hnf2, hrest⟩
    · rw [heq] at hinc
      rw [show (handleSuccess env orig dest p.color (getMoveKey orig dest) sn
          (foundCheckOf s p.color (getMoveKey orig dest))
          (foundCaptureOf s p.color (getMoveKey orig dest))
          (findBadMoveObj sn (currentBadMoves env s)).isSome
          (clickOnly s)).1 = clickOnly s by rw [heq2]] at hinc
      exact absurd rfl hinc
    · rcases hrest with ⟨hseq, heq3⟩ | ⟨hseqf, hall, heq3⟩ | ⟨hseqf, hallf, heq3, _⟩
      · -- sequential mode
        rcases checkStageCompletion_char env { clickOnly s with
            foundMoves := getMoveKey orig dest :: (clickOnly s).foundMoves
            stats := successStats p.color
              (foundCheckOf s p.color (getMoveKey orig dest))
              (foundCaptureOf s p.color (getMoveKey orig dest))
              (clickOnly s).stats } with ⟨a, n, hrec, hge, hlt⟩
        rcases stage_case_split hge hlt with ⟨hc, ha1⟩ | ⟨hc, ha, hn⟩
        · rw [heq, heq3, hrec]
          refine ⟨?_, ?_, fun _ => ⟨?_, ?_⟩⟩
          · dsimp only
            rw [ha1]
            dsimp only
            rw [successStats_solvedCount]
            rfl
          · intro hf
            rw [hseq] at hf
            exact absurd hf (by decide)
          · dsimp only
            exact le_antisymm (advanceStages_le _ _ (stageInv_le env s hstg)) hc
          · intro i hi
            rcases Nat.lt_or_ge i s.currentStageIndex with hz | hz
            · have hold := stageInv_all env s hstg i hz
              exact stageSat_mono env s _ i hold rfl rfl
                (fun x hx => contains_cons_of_contains _ _ _ hx)
            · have hsat := advanceStages_sat _ _ i hz (lt_of_lt_of_le hi hc)
              exact stageSat_mono env _ _ i hsat rfl rfl (fun x hx => hx)
        · rw [heq, heq3, hrec] at hinc
          dsimp only at hinc
          exact absurd (ha.trans (successStats_solvedCount _ _ _ _)) hinc
      · -- free mode, solved
        rcases markSolvedState_char env { clickOnly s with
            foundMoves := getMoveKey orig dest :: (clickOnly s).foundMoves
            stats := successStats p.color
              (foundCheckOf s p.color (getMoveKey orig dest))
              (foundCaptureOf s p.color (getMoveKey orig dest))
              (clickOnly s).stats } with ⟨n, hrec⟩
        rw [heq, heq3, hrec]
        refine ⟨?_, fun _ => ?_, ?_⟩
        · dsimp only
          rw [successStats_solvedCount]
          rfl
        · exact hall
        · intro hf
          rw [hseqf] at hf
          exact absurd hf (by decide)
      · -- free mode, not solved: the counter is unchanged
        rw [heq, heq3] at hinc
        dsimp only at hinc
        exact absurd (successStats_solvedCount _ _ _ _) hinc

theorem claim_C1_witness :
    Reachable envFree s0Free ∧ s0Free.finished = false ∧
    (handleMove envFree 0 "a1" "a2" s0Free).1.stats.solvedCount =
      s0Free.stats.solvedCount + 1 :=
  ⟨⟨0, Relation.ReflTransGen.refl⟩, by decide,
   (claim_C1 envFree 0 "a1" "a2" s0Free ⟨0, Relation.ReflTransGen.refl⟩
     (by decide) (by decide)).1⟩

-- ==========================================
-- Claim C5: accuracy
-- ==========================================

/-- C5 (counterexample): the reachable session `sIdleFinish` — finished by
advancing past the only puzzle without playing a move — has two moves
available yet accuracy 0, refuting "accuracy is 0 exactly when
moves-available is 0". -/
theorem claim_C5_counterexample :
    Reachable envFree sIdleFinish ∧ sIdleFinish.finished = true ∧
    sIdleFinish.stats.totalMovesAvailable = 2 ∧
    accuracyOf sIdleFinish.stats = 0 := by
  refine ⟨⟨0, Relation.ReflTransGen.single (Step.nextP 0 s0Free (by decide))⟩,
    by decide, by decide, ?_⟩
  have h1 : sIdleFinish.stats.totalMovesFound = 0 := by decide
  have h2 : sIdleFinish.stats.totalMovesAvailable = 2 := by decide
  unfold accuracyOf
  rw [h1, h2]
  norm_num

/-- C5 (amended): the accuracy reported at session finish equals
moves-found / moves-available × 100 when moves are available and 0
otherwise; over every reachable session state it lies in [0,100], and it
is 0 exactly when moves-found is 0 (not moves-available: a session
finished without play has moves available but accuracy 0). -/
theorem claim_C5 (env : Env) (now : Int) (s : SessionState)
    (hreach : Reachable env s) :
    accuracyOf s.stats =
      (if s.stats.totalMovesAvailable > 0 then
        (s.stats.totalMovesFound : ℚ) / (s.stats.totalMovesAvailable : ℚ) * 100
      else 0) ∧
    0 ≤ accuracyOf s.stats ∧ accuracyOf s.stats ≤ 100 ∧
    (accuracyOf s.stats = 0 ↔ s.stats.totalMovesFound = 0) ∧
    (∃ t avg, Effect.showResults s.stats.solvedCount env.puzzles.length t
      (accuracyOf s.stats) avg ∈ (finishSession env now s).2) := by
  obtain ⟨hfa, _, _⟩ := reachable_InvP env s hreach
  refine ⟨rfl, ?_, ?_, ?_, ?_⟩
  · unfold accuracyOf
    split
    · positivity
    · exact le_refl 0
  · unfold accuracyOf
    split
    · rename_i hav
      have hA : (0:ℚ) < (s.stats.totalMovesAvailable : ℚ) := by exact_mod_cast hav
      have hF : (s.stats.totalMovesFound : ℚ) ≤ (s.stats.totalMovesAvailable : ℚ) := by
        exact_mod_cast hfa
      have h1 : (s.stats.totalMovesFound : ℚ) / (s.stats.totalMovesAvailable : ℚ) ≤ 1 :=
        (div_le_one hA).mpr hF
      linarith
    · norm_num
  · unfold accuracyOf
    split
    · rename_i hav
      have hA : ((s.stats.totalMovesAvailable : ℚ)) ≠ 0 :=
        ne_of_gt (by exact_mod_cast hav)
      rw [mul_eq_zero, div_eq_zero_iff]
      constructor
      · rintro ((h | h) | h)
        · exact_mod_cast h
        · exact absurd h hA
        · norm_num at h
      · intro h
        exact Or.inl (Or.inl (by exact_mod_cast h))
    · rename_i hav
      have hA0 : s.stats.totalMovesAvailable = 0 := Nat.eq_zero_of_not_pos hav
      have hF0 : s.stats.totalMovesFound = 0 := Nat.le_zero.mp (hA0 ▸ hfa)
      simp [hF0]
  · exact ⟨getElapsedTime now s.status, _,
      List.mem_cons_of_mem _ (List.mem_cons_self _ _)⟩

theorem claim_C5_witness :
    Reachable envFree s0Free ∧
    0 ≤ accuracyOf s0Free.stats ∧ accuracyOf s0Free.stats ≤ 100 :=
  ⟨⟨0, Relation.ReflTransGen.refl⟩,
   (claim_C5 envFree 0 s0Free ⟨0, Relation.ReflTransGen.refl⟩).2.1,
   (claim_C5 envFree 0 s0Free ⟨0, Relation.ReflTransGen.refl⟩).2.2.1⟩

-- ==========================================
-- Claim C9: double counting of check-and-capture keys
-- ==========================================

theorem card_four_union_overcount (FA FB FC FD : Finset String)
    (h : 1 ≤ (FA ∩ FB).card) :
    (FA ∪ FB ∪ FC ∪ FD).card + 1 ≤ FA.card + FB.card + FC.card + FD.card := by
  have hAB := Finset.card_union_add_card_inter FA FB
  have h1 : (FA ∪ FB ∪ FC ∪ FD).card ≤ (FA ∪ FB ∪ FC).card + FD.card :=
    Finset.card_union_le _ _
  have h2 : (FA ∪ FB ∪ FC).card ≤ (FA ∪ FB).card + FC.card :=
    Finset.card_union_le _ _
  omega

theorem card_four_union_overcount_right (FA FB FC FD : Finset String)
    (h : 1 ≤ (FC ∩ FD).card) :
    (FA ∪ FB ∪ FC ∪ FD).card + 1 ≤ FA.card + FB.card + FC.card + FD.card := by
  have hCD := Finset.card_union_add_card_inter FC FD
  have hre : FA ∪ FB ∪ FC ∪ FD = FA ∪ FB ∪ (FC ∪ FD) :=
    Finset.union_assoc (FA ∪ FB) FC FD
  have h1 : (FA ∪ FB ∪ (FC ∪ FD)).card ≤ (FA ∪ FB).card + (FC ∪ FD).card :=
    Finset.card_union_le _ _
  have h2 : (FA ∪ FB).card ≤ FA.card + FB.card := Finset.card_union_le _ _
  rw [hre]
  omega

theorem dedup_four_overcount (LA LB LC LD : List String) (k : String)
    (hA : k ∈ LA) (hB : k ∈ LB) :
    (LA ++ LB ++ LC ++ LD).dedup.length + 1 ≤
      LA.dedup.length + LB.dedup.length + LC.dedup.length + LD.dedup.length := by
  rw [← List.card_toFinset, ← List.card_toFinset, ← List.card_toFinset,
    ← List.card_toFinset, ← List.card_toFinset,
    List.toFinset_append, List.toFinset_append, List.toFinset_append]
  exact card_four_union_overcount _ _ _ _
    (Finset.card_pos.mpr ⟨k, Finset.mem_inter.mpr
      ⟨List.mem_toFinset.mpr hA, List.mem_toFinset.mpr hB⟩⟩)

theorem dedup_four_overcount_right (LA LB LC LD : List String) (k : String)
    (hC : k ∈ LC) (hD : k ∈ LD) :
    (LA ++ LB ++ LC ++ LD).dedup.length + 1 ≤
      LA.dedup.length + LB.dedup.length + LC.dedup.length + LD.dedup.length := by
  rw [← List.card_toFinset, ← List.card_toFinset, ← List.card_toFinset,
    ← List.card_toFinset, ← List.card_toFinset,
    List.toFinset_append, List.toFinset_append, List.toFinset_append]
  exact card_four_union_overcount_right _ _ _ _
    (Finset.card_pos.mpr ⟨k, Finset.mem_inter.mpr
      ⟨List.mem_toFinset.mpr hC, List.mem_toFinset.mpr hD⟩⟩)

/-- C9: availability is tallied once per category — `_loadPuzzle` adds the
four per-category distinct-key counts to moves-available — so a
non-excluded key appearing in both the checks and the captures of one
color makes the availability increment strictly exceed the number of
distinct findable keys; a newly found key increments moves-found by
exactly one and an already-found key adds nothing. Consequently such a
puzzle finishes below 100 percent accuracy even with every target found:
on the toy double-key puzzle the fully solved session reports accuracy
50. -/
theorem claim_C9 :
    (∀ (env : Env) (now : Int) (idx : Nat) (s : SessionState) (p : Puzzle),
      env.puzzles.get? idx = some p →
      (loadPuzzle env now idx s).1.stats.totalMovesAvailable =
        s.stats.totalMovesAvailable +
        (countValidMoves env.config
            (analyzeTargets env.oracle (gameLoad env.oracle p.fen).fen).w.checks
            p.bad_moves +
         countValidMoves env.config
            (analyzeTargets env.oracle (gameLoad env.oracle p.fen).fen).w.captures
            p.bad_moves +
         countValidMoves env.config
            (analyzeTargets env.oracle (gameLoad env.oracle p.fen).fen).b.checks
            p.bad_moves +
         countValidMoves env.config
            (analyzeTargets env.oracle (gameLoad env.oracle p.fen).fen).b.captures
            p.bad_moves)) ∧
    (∀ (cfg : Config) (t : TargetColors) (bml : List BadMoveSpec) (c : Color)
        (k : String),
      k ∈ ((targetsFor t c).checks.filter
            (fun m => isValidMove cfg m bml)).map keyOf →
      k ∈ ((targetsFor t c).captures.filter
            (fun m => isValidMove cfg m bml)).map keyOf →
      (requiredKeys cfg t bml).dedup.length + 1 ≤
        countValidMoves cfg t.w.checks bml + countValidMoves cfg t.w.captures bml +
        countValidMoves cfg t.b.checks bml + countValidMoves cfg t.b.captures bml) ∧
    (∀ (env : Env) (orig dest : String) (pc : Color) (mk san : String)
        (fc fcap : Option MoveData) (mib : Bool) (s : SessionState),
      (s.foundMoves.contains mk = false →
        (handleSuccess env orig dest pc mk san fc fcap mib s).1.stats.totalMovesFound =
          s.stats.totalMovesFound + 1) ∧
      (s.foundMoves.contains mk = true →
        (handleSuccess env orig dest pc mk san fc fcap mib s).1.stats.totalMovesFound =
          s.stats.totalMovesFound)) ∧
    (checkIfAllFound envFree.config s1Free.targets
        (currentBadMoves envFree s1Free) s1Free.foundMoves = true ∧
     sDone.finished = true ∧ sDone.stats.solvedCount = 1 ∧
     sDone.stats.totalMovesFound = 1 ∧ sDone.stats.totalMovesAvailable = 2 ∧
     accuracyOf sDone.stats = 50 ∧ accuracyOf sDone.stats < 100) := by
  refine ⟨?_, ?_, ?_, ?_⟩
  · intro env now idx s p hp
    unfold loadPuzzle
    rw [hp]
  · intro cfg t bml c k hkc hkcap
    rw [requiredKeys_split]
    cases c with
    | w => exact dedup_four_overcount _ _ _ _ k hkc hkcap
    | b => exact dedup_four_overcount_right _ _ _ _ k hkc hkcap
  · intro env orig dest pc mk san fc fcap mib s
    constructor
    · intro hnf
      rcases handleSuccess_char env orig dest pc mk san fc fcap mib s with
        ⟨hf, _⟩ | ⟨hf0, hrest⟩
      · exact absurd (hf.symm.trans hnf) (by decide)
      · rcases hrest with ⟨hseq, heq3⟩ | ⟨hseqf, hall, heq3⟩ | ⟨hseqf, hallf, heq3, _⟩
        · rcases checkStageCompletion_char env { s with
              foundMoves := mk :: s.foundMoves
              stats := successStats pc fc fcap s.stats } with ⟨a, n, hrec, _, _⟩
          rw [heq3, hrec]
          dsimp only
          rw [successStats_totalMovesFound]
        · rcases markSolvedState_char env { s with
              foundMoves := mk :: s.foundMoves
              stats := successStats pc fc fcap s.stats } with ⟨n, hrec⟩
          rw [heq3, hrec]
          dsimp only
          rw [successStats_totalMovesFound]
        · rw [heq3]
          dsimp only
          rw [successStats_totalMovesFound]
    · intro hfound
      rcases handleSuccess_char env orig dest pc mk san fc fcap mib s with
        ⟨hf, heq⟩ | ⟨hf0, _⟩
      · rw [heq]
      · exact absurd (hf0.symm.trans hfound) (by decide)
  · have h1 : sDone.stats.totalMovesFound = 1 := by decide
    have h2 : sDone.stats.totalMovesAvailable = 2 := by decide
    have hacc : accuracyOf sDone.stats = 50 := by
      unfold accuracyOf
      rw [h1, h2]
      norm_num
    refine ⟨by decide, by decide, by decide, h1, h2, hacc, ?_⟩
    rw [hacc]
    norm_num

theorem claim_C9_witness :
    (requiredKeys envFree.config s0Free.targets
        (currentBadMoves envFree s0Free)).dedup.length + 1 ≤
      countValidMoves envFree.config s0Free.targets.w.checks
        (currentBadMoves envFree s0Free) +
      countValidMoves envFree.config s0Free.targets.w.captures
        (currentBadMoves envFree s0Free) +
      countValidMoves envFree.config s0Free.targets.b.checks
        (currentBadMoves envFree s0Free) +
      countValidMoves envFree.config s0Free.targets.b.captures
        (currentBadMoves envFree s0Free) ∧
    (handleSuccess envFree "a1" "a2" Color.w "a1-a2" "Ra2" none none false
        s0Free).1.stats.totalMovesFound = s0Free.stats.totalMovesFound + 1 :=
  ⟨claim_C9.2.1 envFree.config s0Free.targets (currentBadMoves envFree s0Free)
      Color.w "a1-a2" (by decide) (by decide),
   (claim_C9.2.2.1 envFree "a1" "a2" Color.w "a1-a2" "Ra2" none none false
      s0Free).1 (by decide)⟩

end ChessVision
